import Mathlib

/-!
# Checkpoint/restart serialization (`framework/src/restart/DataIO.C`)

A shallow embedding of the `dataStore` / `dataLoad` specializations of
`DataIO.C`, together with the parts of the C++ stream library they call
(`std::ostream::write`, `std::istream::read`), and theorems about them.

Conventions of the embedding:

* a `char` is an octet, `Byte := Fin 256`;
* an object is represented by its object representation (the list of its
  bytes); `stream.write((char *)&x, sizeof(x))` copies these bytes out and
  `stream.read((char *)&x, sizeof(x))` copies bytes over them;
* the widths of `Real`, `unsigned int`, `size_t`, `dof_id_type` and the byte
  order are not fixed by the source: they are collected in an `Abi` record
  that every routine takes as a parameter;
* a routine that can be left by an exception or an abort returns an
  `Outcome`, which keeps the state reached when control left the routine.
-/

namespace MooseRestart

/-! ## Bytes and native integer representation -/

/-- One `char` of a stream or of an object representation. -/
abbrev Byte := Fin 256

/-- Widths (in bytes) of the scalar types used by `DataIO.C`, and the byte
order of the machine. -/
structure Abi where
  /-- The value of `sizeof(Real)`. -/
  sizeofReal : Nat
  /-- The value of `sizeof(unsigned int)`. -/
  sizeofUInt : Nat
  /-- The value of `sizeof(size_t)`. -/
  sizeofSizeT : Nat
  /-- The value of `sizeof(dof_id_type)`. -/
  sizeofDofId : Nat
  /-- Whether the most significant byte of an integer is stored first. -/
  bigEndian : Bool
deriving DecidableEq, Repr

/-- The usual 64-bit little-endian target: `double` reals, 32-bit
`unsigned int` and `dof_id_type`, 64-bit `size_t`. -/
def lp64 : Abi := ⟨8, 4, 8, 4, false⟩

/-- The same target with single-precision reals (`Real` is `float`). -/
def lp64Single : Abi := ⟨4, 4, 8, 4, false⟩

/-- A 64-bit big-endian target with 64-bit identifiers. -/
def be64 : Abi := ⟨8, 4, 8, 8, true⟩

/-- The `w` low-order bytes of `x`, least significant first. -/
def leBytes : Nat → Nat → List Byte
  | 0, _ => []
  | w + 1, x => (Fin.ofNat x : Byte) :: leBytes w (x / 256)

/-- The number whose little-endian digits are `bs`. -/
def leValue : List Byte → Nat
  | [] => 0
  | b :: bs => b.val + 256 * leValue bs

/-- Number of values of an unsigned integer type that is `w` bytes wide. -/
def range (w : Nat) : Nat := 2 ^ (8 * w)

/-- Object representation of the unsigned integer `x` in a type `w` bytes
wide. -/
def Abi.objectBytes (abi : Abi) (w x : Nat) : List Byte :=
  if abi.bigEndian then (leBytes w x).reverse else leBytes w x

/-- Value of the unsigned integer whose object representation is `bs`. -/
def Abi.objectValue (abi : Abi) (bs : List Byte) : Nat :=
  leValue (if abi.bigEndian then bs.reverse else bs)

/-! ## Failures and outcomes -/

/-- The ways in which control can leave a routine other than by returning. -/
inductive Failure where
  /-- A `std::ios_base::failure` thrown by a stream whose exception mask
  selects a state bit that has just been set. -/
  | iosFailure
  /-- A call of `mooseError(msg)`. -/
  | mooseError (msg : String)
  /-- The mesh could not resolve the identifier `id`. -/
  | unresolvedReference (id : Nat)
deriving DecidableEq, Repr

/-- Result of running a `void` routine on a state of type `σ`: either it
returned, or control left it by a failure; in both cases with the state
reached at that point. -/
inductive Outcome (σ : Type) where
  | returned (s : σ)
  | raised (err : Failure) (s : σ)
deriving DecidableEq, Repr

/-- The state carried by an outcome. -/
def Outcome.state {σ : Type} : Outcome σ → σ
  | .returned s => s
  | .raised _ s => s

/-- Whether the routine returned normally. -/
def Outcome.isReturned {σ : Type} : Outcome σ → Bool
  | .returned _ => true
  | .raised _ _ => false

/-! ## Streams -/

/-- The state bits of a stream (`std::ios_base::iostate`). -/
structure IoState where
  eofbit : Bool
  failbit : Bool
  badbit : Bool
deriving DecidableEq, Repr

/-- The value `std::ios_base::goodbit`: no bit set. -/
def IoState.goodbit : IoState := ⟨false, false, false⟩

/-- Bitwise or of two state values. -/
def IoState.or (a b : IoState) : IoState :=
  ⟨a.eofbit || b.eofbit, a.failbit || b.failbit, a.badbit || b.badbit⟩

/-- Whether two state values have a bit in common. -/
def IoState.meets (a b : IoState) : Bool :=
  (a.eofbit && b.eofbit) || (a.failbit && b.failbit) || (a.badbit && b.badbit)

/-- An output channel (`std::ostream` over a healthy sink): the bytes written
so far. -/
structure OStream where
  bytes : List Byte
deriving DecidableEq, Repr

/-- The call `stream.write(src, n)`: appends the first `n` chars of the buffer `src`. -/
def OStream.write (stream : OStream) (src : List Byte) (n : Nat) : OStream :=
  ⟨stream.bytes ++ src.take n⟩

/-- The bytes appended to the channel between two of its states. -/
def OStream.written (before after : OStream) : List Byte :=
  after.bytes.drop before.bytes.length

/-- An input channel (`std::istream`): the bytes not yet extracted (the
cursor stands before the first of them), the state bits and the exception
mask. -/
structure IStream where
  buf : List Byte
  state : IoState
  exceptions : IoState
deriving DecidableEq, Repr

/-- A fresh reader over `bytes` with exception mask `mask`. -/
def IStream.reader (bytes : List Byte) (mask : IoState) : IStream :=
  ⟨bytes, IoState.goodbit, mask⟩

/-- The call `stream.good()`. -/
def IStream.good (stream : IStream) : Bool :=
  !stream.state.eofbit && !stream.state.failbit && !stream.state.badbit

/-- The call `stream.setstate(f)`: sets the bits of `f`, and throws when the exception
mask selects a bit that is now set. -/
def IStream.setstate (stream : IStream) (f : IoState) : Outcome IStream :=
  let s1 : IStream := { stream with state := stream.state.or f }
  if s1.state.meets s1.exceptions then .raised .iosFailure s1 else .returned s1

/-- The call `stream.read(dst, n)` where `dst` is the current content of the
destination buffer. On a stream that is not `good()` nothing is extracted and
`failbit` is set. Otherwise up to `n` bytes are extracted and copied over the
beginning of `dst`; when fewer than `n` were available, `eofbit` and `failbit`
are set. The state holds the stream and the destination buffer. -/
def IStream.read (stream : IStream) (dst : List Byte) (n : Nat) :
    Outcome (IStream × List Byte) :=
  if stream.good then
    let got := stream.buf.take n
    let s1 : IStream := { stream with buf := stream.buf.drop n }
    let dst1 := got ++ dst.drop got.length
    if got.length < n then
      match s1.setstate ⟨true, true, false⟩ with
      | .returned s2 => .returned (s2, dst1)
      | .raised err s2 => .raised err (s2, dst1)
    else .returned (s1, dst1)
  else
    match stream.setstate ⟨false, true, false⟩ with
    | .returned s2 => .returned (s2, dst)
    | .raised err s2 => .raised err (s2, dst)

/-! ## Values -/

/-- A `Real`, as its object representation. -/
structure Real where
  bytes : List Byte
deriving DecidableEq, Repr

/-- The `Real` obtained from the literal `0`: all bytes zero. -/
def Real.zero (abi : Abi) : Real := ⟨List.replicate abi.sizeofReal 0⟩

instance : Inhabited Real := ⟨⟨[]⟩⟩

/-- A `std::string`: its `size()` chars. -/
abbrev CString := List Byte

/-- The buffer returned by `c_str()`: the chars followed by a null char. -/
def c_str (v : CString) : List Byte := v ++ [0]

/-- The call `v.resize(n)`: keeps the first `n` chars and pads with null chars. -/
def CString.resize (v : CString) (n : Nat) : CString :=
  v.take n ++ List.replicate (n - v.length) 0

/-- A `DenseMatrix<Real>`: its dimensions `_m`, `_n` and its entries `_val`,
stored row by row. -/
structure DenseMatrix where
  m : Nat
  n : Nat
  val : List Real
deriving DecidableEq, Repr

/-- The entry `v(i, j)`, read. -/
def DenseMatrix.get (v : DenseMatrix) (i j : Nat) : Real :=
  v.val.getD (i * v.n + j) default

/-- The assignment `v(i, j) = r`. -/
def DenseMatrix.set (v : DenseMatrix) (i j : Nat) (r : Real) : DenseMatrix :=
  { v with val := v.val.set (i * v.n + j) r }

/-- The call `v.resize(new_m, new_n)`: the matrix takes the new shape and all its
entries are zero. libMesh computes the number of entries `new_m * new_n` in
`unsigned int` and allocates storage for that many entries; this definition
is the call for the shapes whose number of entries is a value of
`unsigned int` and whose storage is allocated, which are the shapes a
`DenseMatrix` can have. For other shapes (a product that wraps, an allocation
that fails) it says nothing about the call. -/
def DenseMatrix.resize (abi : Abi) (_v : DenseMatrix) (new_m new_n : Nat) : DenseMatrix :=
  ⟨new_m, new_n, List.replicate (new_m * new_n) (Real.zero abi)⟩

/-- The dimensions of a matrix are values of `unsigned int` and its storage
has one well-sized `Real` per entry. -/
def DenseMatrix.WellFormed (abi : Abi) (v : DenseMatrix) : Prop :=
  v.m < range abi.sizeofUInt ∧ v.n < range abi.sizeofUInt ∧
    v.val.length = v.m * v.n ∧ ∀ r ∈ v.val, r.bytes.length = abi.sizeofReal

/-- A mesh element (`Elem`): the address of the object and what `id()` returns. -/
structure Elem where
  address : Nat
  id : Nat
deriving DecidableEq, Repr

/-- A mesh node (`Node`): the address of the object and what `id()` returns. -/
structure Node where
  address : Nat
  id : Nat
deriving DecidableEq, Repr

/-- The constant `libMesh::DofObject::invalid_id`: the largest value of `dof_id_type`. -/
def invalid_id (abi : Abi) : Nat := range abi.sizeofDofId - 1

/-- The mesh behind the context pointer: the element and the node that carry
a given identifier, if any. -/
structure MooseMesh where
  elems : Nat → Option Elem
  nodes : Nat → Option Node

/-- Modelled from the spec: `MooseMesh::elemPtr` is not part of the sources;
it is the directory's `resolve(identifier) -> entity handle or NotFound`,
where a missing entity is a fatal mismatch (UnresolvedReferenceError). -/
def MooseMesh.elemPtr (mesh : MooseMesh) (id : Nat) : Except Failure Elem :=
  match mesh.elems id with
  | some h => .ok h
  | none => .error (.unresolvedReference id)

/-- Modelled from the spec: `MooseMesh::nodePtr` is not part of the sources;
it is the directory's `resolve(identifier) -> entity handle or NotFound`,
where a missing entity is a fatal mismatch (UnresolvedReferenceError). -/
def MooseMesh.nodePtr (mesh : MooseMesh) (id : Nat) : Except Failure Node :=
  match mesh.nodes id with
  | some h => .ok h
  | none => .error (.unresolvedReference id)

/-! ## Loops -/

/-- The loop `for (unsigned int i = start; i < start + count; i++) body(i)` on a state that
the body transforms without failing. -/
def forEach {σ : Type} : (count : Nat) → (start : Nat) → (body : Nat → σ → σ) → σ → σ
  | 0, _, _, s => s
  | k + 1, i, body, s => forEach k (i + 1) body (body i s)

/-- The loop `for (unsigned int i = start; i < start + count; i++) body(i)` where the body
may fail: the loop is left at the first failure. -/
def forEachM {σ : Type} :
    (count : Nat) → (start : Nat) → (body : Nat → σ → Outcome σ) → σ → Outcome σ
  | 0, _, _, s => .returned s
  | k + 1, i, body, s =>
    match body i s with
    | .returned s1 => forEachM k (i + 1) body s1
    | .raised err s1 => .raised err s1

/-! ## Store routines (`DataIO.C`, lines 20-166) -/

/-- The specialization `dataStore(std::ostream &, Real &, void *)`. -/
def dataStoreReal (abi : Abi) (stream : OStream) (v : Real) (_context : Option MooseMesh) :
    OStream :=
  stream.write v.bytes abi.sizeofReal

/-- The specialization `dataStore(std::ostream &, std::string &, void *)`. -/
def dataStoreString (abi : Abi) (stream : OStream) (v : CString)
    (_context : Option MooseMesh) : OStream :=
  -- unsigned int size = v.size();
  let size := v.length % range abi.sizeofUInt
  let stream := stream.write (abi.objectBytes abi.sizeofUInt size) abi.sizeofUInt
  stream.write (c_str v) size

/-- The specialization `dataStore(std::ostream &, DenseMatrix<Real> &, void *)`. -/
def dataStoreDenseMatrix (abi : Abi) (stream : OStream) (v : DenseMatrix)
    (context : Option MooseMesh) : OStream :=
  let m := v.m
  let n := v.n
  let stream := stream.write (abi.objectBytes abi.sizeofUInt m) abi.sizeofUInt
  let stream := stream.write (abi.objectBytes abi.sizeofUInt n) abi.sizeofUInt
  forEach v.m 0 (fun i stream =>
    forEach v.n 0 (fun j stream =>
      let r := v.get i j
      dataStoreReal abi stream r context) stream) stream

/-- Modelled from the spec: `storeHelper` is declared in `DataIO.h`, which is
not part of the sources; on a `dof_id_type` it is the spec's "write the
identifier via the primitive integer routine", which "writes the fixed-width
native representation". -/
def storeHelper (abi : Abi) (stream : OStream) (id : Nat) (_context : Option MooseMesh) :
    OStream :=
  stream.write (abi.objectBytes abi.sizeofDofId id) abi.sizeofDofId

/-- The specialization `dataStore(std::ostream &, const Elem *&, void *)`; `e` is `none`
for a null pointer. -/
def dataStoreConstElem (abi : Abi) (stream : OStream) (e : Option Elem)
    (context : Option MooseMesh) : Outcome OStream :=
  let id := invalid_id abi
  match e with
  | some elem =>
    let id := elem.id
    if id = invalid_id abi then
      .raised (.mooseError "Can\x27t output Elems with invalid ids!") stream
    else .returned (storeHelper abi stream id context)
  | none => .returned (storeHelper abi stream id context)

/-- The specialization `dataStore(std::ostream &, const Node *&, void *)`; `n` is `none`
for a null pointer. -/
def dataStoreConstNode (abi : Abi) (stream : OStream) (n : Option Node)
    (context : Option MooseMesh) : Outcome OStream :=
  let id := invalid_id abi
  match n with
  | some node =>
    let id := node.id
    if id = invalid_id abi then
      .raised (.mooseError "Can\x27t output Nodes with invalid ids!") stream
    else .returned (storeHelper abi stream id context)
  | none => .returned (storeHelper abi stream id context)

/-- The specialization `dataStore(std::ostream &, Elem *&, void *)`; `e` is `none` for a
null pointer. -/
def dataStoreElem (abi : Abi) (stream : OStream) (e : Option Elem)
    (context : Option MooseMesh) : Outcome OStream :=
  let id := invalid_id abi
  match e with
  | some elem =>
    let id := elem.id
    if id = invalid_id abi then
      .raised (.mooseError "Can\x27t output Elems with invalid ids!") stream
    else .returned (storeHelper abi stream id context)
  | none => .returned (storeHelper abi stream id context)

/-- The specialization `dataStore(std::ostream &, Node *&, void *)`; `n` is `none` for a
null pointer. -/
def dataStoreNode (abi : Abi) (stream : OStream) (n : Option Node)
    (context : Option MooseMesh) : Outcome OStream :=
  let id := invalid_id abi
  match n with
  | some node =>
    let id := node.id
    if id = invalid_id abi then
      .raised (.mooseError "Can\x27t output Nodes with invalid ids!") stream
    else .returned (storeHelper abi stream id context)
  | none => .returned (storeHelper abi stream id context)

/-! ## Load routines (`DataIO.C`, lines 170-337) -/

/-- The specialization `dataLoad(std::istream &, Real &, void *)`. The state is the stream
and the destination `v`. -/
def dataLoadReal (abi : Abi) (stream : IStream) (v : Real) (_context : Option MooseMesh) :
    Outcome (IStream × Real) :=
  match stream.read v.bytes abi.sizeofReal with
  | .returned (stream, bytes) => .returned (stream, ⟨bytes⟩)
  | .raised err (stream, bytes) => .raised err (stream, ⟨bytes⟩)

/-- The specialization `dataLoad(std::istream &, std::string &, void *)`. The state is the
stream and the destination `v`. -/
def dataLoadString (abi : Abi) (stream : IStream) (v : CString)
    (_context : Option MooseMesh) : Outcome (IStream × CString) :=
  -- unsigned int size = 0;
  let size := abi.objectBytes abi.sizeofUInt 0
  match stream.read size abi.sizeofUInt with
  | .raised err (stream, _) => .raised err (stream, v)
  | .returned (stream, size) =>
    let size := abi.objectValue size
    let v := v.resize size
    stream.read v size

/-- Body of the inner loop of `dataLoad(std::istream &, DenseMatrix<Real> &, void *)`:
`Real r = 0; stream.read((char *)&r, sizeof(r)); v(i, j) = r;`. -/
def dataLoadDenseMatrixEntry (abi : Abi) (i j : Nat) (st : IStream × DenseMatrix) :
    Outcome (IStream × DenseMatrix) :=
  let r := Real.zero abi
  match st.1.read r.bytes abi.sizeofReal with
  | .raised err (stream, _) => .raised err (stream, st.2)
  | .returned (stream, r) => .returned (stream, st.2.set i j ⟨r⟩)

/-- The specialization `dataLoad(std::istream &, DenseMatrix<Real> &, void *)`. The state
is the stream and the destination `v`. -/
def dataLoadDenseMatrix (abi : Abi) (stream : IStream) (v : DenseMatrix)
    (_context : Option MooseMesh) : Outcome (IStream × DenseMatrix) :=
  -- unsigned int nr = 0, nc = 0;
  let nr := abi.objectBytes abi.sizeofUInt 0
  let nc := abi.objectBytes abi.sizeofUInt 0
  match stream.read nr abi.sizeofUInt with
  | .raised err (stream, _) => .raised err (stream, v)
  | .returned (stream, nr) =>
    match stream.read nc abi.sizeofUInt with
    | .raised err (stream, _) => .raised err (stream, v)
    | .returned (stream, nc) =>
      let v := v.resize abi (abi.objectValue nr) (abi.objectValue nc)
      forEachM v.m 0 (fun i st =>
        forEachM v.n 0 (fun j st => dataLoadDenseMatrixEntry abi i j st) st) (stream, v)

/-- Modelled from the spec: `loadHelper` is declared in `DataIO.h`, which is
not part of the sources; on a `dof_id_type` it is the spec's "read the
identifier" by the primitive integer routine, which "reads the same fixed
width back" over the variable `id`. -/
def loadHelper (abi : Abi) (stream : IStream) (id : Nat) (_context : Option MooseMesh) :
    Outcome (IStream × Nat) :=
  match stream.read (abi.objectBytes abi.sizeofDofId id) abi.sizeofDofId with
  | .returned (stream, bytes) => .returned (stream, abi.objectValue bytes)
  | .raised err (stream, bytes) => .raised err (stream, abi.objectValue bytes)

/-- State of a pointer load: the stream, the destination pointer (`none` when
null), and the identifiers that have been passed to the mesh so far (a record
kept for the proofs; the mesh itself is never changed). -/
structure RefLoad (α : Type) where
  stream : IStream
  ptr : Option α
  lookups : List Nat
deriving DecidableEq, Repr

/-- The specialization `dataLoad(std::istream &, const Elem *&, void *)`; the context is
`none` for a null pointer. -/
def dataLoadConstElem (abi : Abi) (st : RefLoad Elem) (context : Option MooseMesh) :
    Outcome (RefLoad Elem) :=
  match context with
  | none => .raised (.mooseError "Can only load Elem objects using a MooseMesh context!") st
  | some mesh =>
    let id := invalid_id abi
    match loadHelper abi st.stream id context with
    | .raised err (stream, _) => .raised err { st with stream := stream }
    | .returned (stream, id) =>
      if id ≠ invalid_id abi then
        match mesh.elemPtr id with
        | .ok h => .returned ⟨stream, some h, st.lookups ++ [id]⟩
        | .error err => .raised err ⟨stream, st.ptr, st.lookups ++ [id]⟩
      else .returned ⟨stream, none, st.lookups⟩

/-- The specialization `dataLoad(std::istream &, const Node *&, void *)`; the context is
`none` for a null pointer. -/
def dataLoadConstNode (abi : Abi) (st : RefLoad Node) (context : Option MooseMesh) :
    Outcome (RefLoad Node) :=
  match context with
  | none => .raised (.mooseError "Can only load Node objects using a MooseMesh context!") st
  | some mesh =>
    let id := invalid_id abi
    match loadHelper abi st.stream id context with
    | .raised err (stream, _) => .raised err { st with stream := stream }
    | .returned (stream, id) =>
      if id ≠ invalid_id abi then
        match mesh.nodePtr id with
        | .ok h => .returned ⟨stream, some h, st.lookups ++ [id]⟩
        | .error err => .raised err ⟨stream, st.ptr, st.lookups ++ [id]⟩
      else .returned ⟨stream, none, st.lookups⟩

/-- The specialization `dataLoad(std::istream &, Elem *&, void *)`; the context is `none`
for a null pointer. -/
def dataLoadElem (abi : Abi) (st : RefLoad Elem) (context : Option MooseMesh) :
    Outcome (RefLoad Elem) :=
  match context with
  | none => .raised (.mooseError "Can only load Elem objects using a MooseMesh context!") st
  | some mesh =>
    let id := invalid_id abi
    match loadHelper abi st.stream id context with
    | .raised err (stream, _) => .raised err { st with stream := stream }
    | .returned (stream, id) =>
      if id ≠ invalid_id abi then
        match mesh.elemPtr id with
        | .ok h => .returned ⟨stream, some h, st.lookups ++ [id]⟩
        | .error err => .raised err ⟨stream, st.ptr, st.lookups ++ [id]⟩
      else .returned ⟨stream, none, st.lookups⟩

/-- The specialization `dataLoad(std::istream &, Node *&, void *)`; the context is `none`
for a null pointer. -/
def dataLoadNode (abi : Abi) (st : RefLoad Node) (context : Option MooseMesh) :
    Outcome (RefLoad Node) :=
  match context with
  | none => .raised (.mooseError "Can only load Node objects using a MooseMesh context!") st
  | some mesh =>
    let id := invalid_id abi
    match loadHelper abi st.stream id context with
    | .raised err (stream, _) => .raised err { st with stream := stream }
    | .returned (stream, id) =>
      if id ≠ invalid_id abi then
        match mesh.nodePtr id with
        | .ok h => .returned ⟨stream, some h, st.lookups ++ [id]⟩
        | .error err => .raised err ⟨stream, st.ptr, st.lookups ++ [id]⟩
      else .returned ⟨stream, none, st.lookups⟩

/-! ## Column-major matrices and text buffers -/

/-- Modelled from the spec: the class `ColumnMajorMatrix` is declared in
`ColumnMajorMatrix.h`, which is not part of the sources. `m()` and `n()` are
the numbers of rows and columns, `v(i, j)` is the entry in logical row `i` and
column `j`, and the entries are stored column by column. -/
structure ColumnMajorMatrix where
  n_rows : Nat
  n_cols : Nat
  values : List Real
deriving DecidableEq, Repr

/-- The call `v.m()`. -/
def ColumnMajorMatrix.m (v : ColumnMajorMatrix) : Nat := v.n_rows

/-- The call `v.n()`. -/
def ColumnMajorMatrix.n (v : ColumnMajorMatrix) : Nat := v.n_cols

/-- The entry `v(i, j)`, read. -/
def ColumnMajorMatrix.get (v : ColumnMajorMatrix) (i j : Nat) : Real :=
  v.values.getD (j * v.n_rows + i) default

/-- The assignment `v(i, j) = r`. -/
def ColumnMajorMatrix.set (v : ColumnMajorMatrix) (i j : Nat) (r : Real) : ColumnMajorMatrix :=
  { v with values := v.values.set (j * v.n_rows + i) r }

/-- The storage of a column-major matrix has one well-sized `Real` per entry. -/
def ColumnMajorMatrix.WellFormed (abi : Abi) (v : ColumnMajorMatrix) : Prop :=
  v.values.length = v.n_rows * v.n_cols ∧ ∀ r ∈ v.values, r.bytes.length = abi.sizeofReal

/-- A `std::stringstream`: its contents (what `str()` returns), its put
position, its state bits and its exception mask. -/
structure stringstream where
  str : List Byte
  pptr : Nat
  state : IoState
  exceptions : IoState
deriving DecidableEq, Repr

/-- A freshly constructed `std::stringstream`: empty, put position 0, no state
bit set, no exception selected. -/
def stringstream.fresh : stringstream := ⟨[], 0, IoState.goodbit, IoState.goodbit⟩

/-- The call `s.good()`. -/
def stringstream.good (s : stringstream) : Bool :=
  !s.state.eofbit && !s.state.failbit && !s.state.badbit

/-- The call `s.setstate(f)`: sets the bits of `f`, and throws when the exception
mask selects a bit that is now set. -/
def stringstream.setstate (s : stringstream) (f : IoState) : Outcome stringstream :=
  let s1 : stringstream := { s with state := s.state.or f }
  if s1.state.meets s1.exceptions then .raised .iosFailure s1 else .returned s1

/-- The call `s.write(src, n)`. On a stream that is not `good()` the sentry of
the call is false and nothing is written; the C++ standard lets the sentry
call `setstate(failbit)` then, which the standard libraries do for all, some
or none of the states: `sentry st` tells whether the library does it for a
stream in state `st`. On a good stream the first `n` chars of `src` are put at
the put position, over the chars that are there and beyond the end if need
be, and the put position advances by `n`. -/
def stringstream.write (sentry : IoState → Bool) (s : stringstream) (src : List Byte)
    (n : Nat) : Outcome stringstream :=
  if s.good then
    .returned { s with
      str := s.str.take s.pptr ++ src.take n ++ s.str.drop (s.pptr + n)
      pptr := s.pptr + n }
  else if sentry s.state then s.setstate ⟨false, true, false⟩
  else .returned s

/-- The specialization `dataStore(std::ostream &, ColumnMajorMatrix &, void *)`. -/
def dataStoreColumnMajorMatrix (abi : Abi) (stream : OStream) (v : ColumnMajorMatrix)
    (_context : Option MooseMesh) : OStream :=
  forEach v.m 0 (fun i stream =>
    forEach v.n 0 (fun j stream =>
      let r := v.get i j
      stream.write r.bytes abi.sizeofReal) stream) stream

/-- The specialization `dataStore(std::ostream &, std::stringstream &, void *)`. -/
def dataStoreStringstream (abi : Abi) (stream : OStream) (s : stringstream)
    (_context : Option MooseMesh) : OStream :=
  let s_str := s.str
  -- size_t s_size = s_str.size();
  let s_size := s_str.length
  let stream := stream.write (abi.objectBytes abi.sizeofSizeT s_size) abi.sizeofSizeT
  stream.write (c_str s_str) s_str.length

/-- The specialization `dataStore(std::ostream &, std::stringstream *&, void *)`; `s` is
the object that the (non-null) pointer points to. -/
def dataStoreStringstreamPtr (abi : Abi) (stream : OStream) (s : stringstream)
    (context : Option MooseMesh) : OStream :=
  dataStoreStringstream abi stream s context

/-- Body of the inner loop of `dataLoad(std::istream &, ColumnMajorMatrix &, void *)`:
`Real r = 0; stream.read((char *)&r, sizeof(r)); v(i, j) = r;`. -/
def dataLoadColumnMajorMatrixEntry (abi : Abi) (i j : Nat)
    (st : IStream × ColumnMajorMatrix) : Outcome (IStream × ColumnMajorMatrix) :=
  let r := Real.zero abi
  match st.1.read r.bytes abi.sizeofReal with
  | .raised err (stream, _) => .raised err (stream, st.2)
  | .returned (stream, r) => .returned (stream, st.2.set i j ⟨r⟩)

/-- The specialization `dataLoad(std::istream &, ColumnMajorMatrix &, void *)`. The state
is the stream and the destination `v`. -/
def dataLoadColumnMajorMatrix (abi : Abi) (stream : IStream) (v : ColumnMajorMatrix)
    (_context : Option MooseMesh) : Outcome (IStream × ColumnMajorMatrix) :=
  forEachM v.m 0 (fun i st =>
    forEachM v.n 0 (fun j st => dataLoadColumnMajorMatrixEntry abi i j st) st) (stream, v)

/-- The specialization `dataLoad(std::istream &, std::stringstream &, void *)`. The state
is the stream and the destination `s`. The array `new char[s_size]` starts
with indeterminate chars, `uninit k` at index `k`; the allocation is taken to
succeed. What the library does to the state of a destination that is not
good is `sentry`, see `stringstream.write`. -/
def dataLoadStringstream (abi : Abi) (uninit : Nat → Byte) (sentry : IoState → Bool)
    (stream : IStream) (s : stringstream) (_context : Option MooseMesh) :
    Outcome (IStream × stringstream) :=
  -- size_t s_size = 0;
  let s_size := abi.objectBytes abi.sizeofSizeT 0
  match stream.read s_size abi.sizeofSizeT with
  | .raised err (stream, _) => .raised err (stream, s)
  | .returned (stream, s_size) =>
    let s_size := abi.objectValue s_size
    let s_s := (List.range s_size).map uninit
    match stream.read s_s s_size with
    | .raised err (stream, _) => .raised err (stream, s)
    | .returned (stream, s_s) =>
      match s.write sentry s_s s_size with
      | .raised err s => .raised err (stream, s)
      | .returned s => .returned (stream, s)

/-- The specialization `dataLoad(std::istream &, std::stringstream *&, void *)`; `s` is
the object that the (non-null) pointer points to. -/
def dataLoadStringstreamPtr (abi : Abi) (uninit : Nat → Byte) (sentry : IoState → Bool)
    (stream : IStream) (s : stringstream) (context : Option MooseMesh) :
    Outcome (IStream × stringstream) :=
  dataLoadStringstream abi uninit sentry stream s context

/-! ## Orders of traversal -/

/-- The index pairs `(i, j)` for `i = 0 .. m - 1` and, inside, `j = 0 .. n - 1`:
logical row by row. -/
def rowMajorOrder (m n : Nat) : List (Nat × Nat) :=
  (List.range m).flatMap (fun i => (List.range n).map (fun j => (i, j)))

/-- Running a step that cannot fail for each index of a list, in order. -/
def visit {ι σ : Type} (step : ι → σ → σ) : List ι → σ → σ
  | [], s => s
  | i :: is, s => visit step is (step i s)

/-- Running a step that may fail for each index of a list, in order, up to the
first failure. -/
def visitM {ι σ : Type} (step : ι → σ → Outcome σ) : List ι → σ → Outcome σ
  | [], s => .returned s
  | i :: is, s =>
    match step i s with
    | .returned s1 => visitM step is s1
    | .raised err s1 => .raised err s1

/-! ## Sequences of calls -/

/-- The variables of a caller that restores a scalar, a text, a dense matrix
and an element pointer from one channel, and the record of the identifiers
passed to the mesh. -/
structure Replay where
  stream : IStream
  scalar : Real
  text : CString
  matrix : DenseMatrix
  elem : Option Elem
  lookups : List Nat
deriving DecidableEq, Repr

/-- A caller stores a scalar, a text, a dense matrix and an element pointer,
in this order, into one channel. -/
def storeAll (abi : Abi) (stream : OStream) (scalar : Real) (text : CString)
    (matrix : DenseMatrix) (elem : Option Elem) (context : Option MooseMesh) :
    Outcome OStream :=
  let stream := dataStoreReal abi stream scalar context
  let stream := dataStoreString abi stream text context
  let stream := dataStoreDenseMatrix abi stream matrix context
  dataStoreElem abi stream elem context

/-- A caller loads a scalar, a text, a dense matrix and an element pointer, in
this order, from one channel; a failure of a load ends the sequence. -/
def loadAll (abi : Abi) (st : Replay) (context : Option MooseMesh) : Outcome Replay :=
  match dataLoadReal abi st.stream st.scalar context with
  | .raised err (stream, scalar) => .raised err { st with stream := stream, scalar := scalar }
  | .returned (stream, scalar) =>
    match dataLoadString abi stream st.text context with
    | .raised err (stream, text) =>
      .raised err { st with stream := stream, scalar := scalar, text := text }
    | .returned (stream, text) =>
      match dataLoadDenseMatrix abi stream st.matrix context with
      | .raised err (stream, matrix) =>
        .raised err { st with stream := stream, scalar := scalar, text := text,
                              matrix := matrix }
      | .returned (stream, matrix) =>
        match dataLoadElem abi ⟨stream, st.elem, st.lookups⟩ context with
        | .raised err r => .raised err ⟨r.stream, scalar, text, matrix, r.ptr, r.lookups⟩
        | .returned r => .returned ⟨r.stream, scalar, text, matrix, r.ptr, r.lookups⟩

/-- A caller stores a scalar, then a text, into one channel. -/
def storeScalarText (abi : Abi) (stream : OStream) (scalar : Real) (text : CString)
    (context : Option MooseMesh) : OStream :=
  let stream := dataStoreReal abi stream scalar context
  dataStoreString abi stream text context

/-- A caller loads a text, then a scalar, from one channel; a failure of a
load ends the sequence. -/
def loadTextScalar (abi : Abi) (stream : IStream) (text : CString) (scalar : Real)
    (context : Option MooseMesh) : Outcome (IStream × CString × Real) :=
  match dataLoadString abi stream text context with
  | .raised err (stream, text) => .raised err (stream, text, scalar)
  | .returned (stream, text) =>
    match dataLoadReal abi stream scalar context with
    | .raised err (stream, scalar) => .raised err (stream, text, scalar)
    | .returned (stream, scalar) => .returned (stream, text, scalar)

/-- The text `restart`. -/
def textRestart : CString := [114, 101, 115, 116, 97, 114, 116]

/-! ## Running out of bytes -/

/-- The outcomes that a part of the dense-matrix load can have on a channel
with exception mask `mask` that holds fewer than `need` bytes, the matrix
having shape `nr` x `nc`: it returned, and either the channel is still good
and holds fewer than `need` bytes, or the mask selects neither `eofbit` nor
`failbit` and both bits are set; or it was left by a stream failure, the mask
selects one of the two bits and both are set. -/
def Underrun (mask : IoState) (nr nc need : Nat) : Outcome (IStream × DenseMatrix) → Prop
  | .returned (s, v) => s.exceptions = mask ∧ v.m = nr ∧ v.n = nc ∧
      ((s.good = true ∧ s.buf.length < need) ∨
        ((mask.eofbit || mask.failbit) = false ∧ s.state = ⟨true, true, false⟩))
  | .raised err (s, v) => err = .iosFailure ∧ (mask.eofbit || mask.failbit) = true ∧
      s.state = ⟨true, true, false⟩ ∧ v.m = nr ∧ v.n = nc

/-! ## Example values -/

/-- The double `3.14` on a little-endian machine. -/
def real314 : Real := ⟨[31, 133, 235, 81, 184, 30, 9, 64]⟩

/-- The 2 x 2 matrix `[[1, 2], [3, 4]]` of doubles on a little-endian machine. -/
def matrix1234 : DenseMatrix :=
  ⟨2, 2, [⟨[0, 0, 0, 0, 0, 0, 240, 63]⟩, ⟨[0, 0, 0, 0, 0, 0, 0, 64]⟩,
    ⟨[0, 0, 0, 0, 0, 0, 8, 64]⟩, ⟨[0, 0, 0, 0, 0, 0, 16, 64]⟩]⟩

/-- A 3 x 1 matrix of ones, as a destination with another shape. -/
def matrixOnes : DenseMatrix :=
  ⟨3, 1, [⟨[0, 0, 0, 0, 0, 0, 240, 63]⟩, ⟨[0, 0, 0, 0, 0, 0, 240, 63]⟩,
    ⟨[0, 0, 0, 0, 0, 0, 240, 63]⟩]⟩

/-- A mesh whose only entities are the element and the node with identifier 42. -/
def mesh42 : MooseMesh :=
  ⟨fun id => if id = 42 then some ⟨2000, 42⟩ else none,
    fun id => if id = 42 then some ⟨3000, 42⟩ else none⟩

/-- A mesh without entities: it resolves no identifier. -/
def emptyMesh : MooseMesh := ⟨fun _ => none, fun _ => none⟩

/-- A 2 x 3 column-major matrix of doubles with the entries `1 .. 6` stored
column by column: its logical rows are `1 3 5` and `2 4 6`. -/
def cmm23 : ColumnMajorMatrix :=
  ⟨2, 3, [⟨[0, 0, 0, 0, 0, 0, 240, 63]⟩, ⟨[0, 0, 0, 0, 0, 0, 0, 64]⟩,
    ⟨[0, 0, 0, 0, 0, 0, 8, 64]⟩, ⟨[0, 0, 0, 0, 0, 0, 16, 64]⟩,
    ⟨[0, 0, 0, 0, 0, 0, 20, 64]⟩, ⟨[0, 0, 0, 0, 0, 0, 24, 64]⟩]⟩

/-- A 2 x 3 column-major matrix of ones. -/
def cmmOnes : ColumnMajorMatrix :=
  ⟨2, 3, List.replicate 6 ⟨[0, 0, 0, 0, 0, 0, 240, 63]⟩⟩

/-! ## The integer representation -/

theorem leBytes_length (w x : Nat) : (leBytes w x).length = w := by
  induction w generalizing x with
  | zero => rfl
  | succ w ih => simp [leBytes, ih]

theorem leValue_leBytes (w x : Nat) : leValue (leBytes w x) = x % 256 ^ w := by
  induction w generalizing x with
  | zero => simp [leBytes, leValue, Nat.mod_one]
  | succ w ih =>
    simp only [leBytes, leValue, ih, Fin.ofNat, Fin.val_mk]
    rw [pow_succ, mul_comm (256 ^ w) 256, Nat.mod_mul]

theorem range_eq (w : Nat) : range w = 256 ^ w := by
  unfold range
  rw [pow_mul]
  norm_num

theorem objectBytes_length (abi : Abi) (w x : Nat) : (abi.objectBytes w x).length = w := by
  unfold Abi.objectBytes
  split <;> simp [leBytes_length]

theorem objectValue_objectBytes (abi : Abi) (w x : Nat) :
    abi.objectValue (abi.objectBytes w x) = x % range w := by
  unfold Abi.objectValue Abi.objectBytes
  rw [range_eq]
  split <;> simp [leValue_leBytes]

theorem objectValue_objectBytes_of_lt (abi : Abi) (w x : Nat) (h : x < range w) :
    abi.objectValue (abi.objectBytes w x) = x := by
  rw [objectValue_objectBytes, Nat.mod_eq_of_lt h]

/-! ## Reading what is available -/

/-- Reading `n` bytes from a good stream that holds at least `n` bytes returns
normally, consumes exactly these bytes and leaves the state bits alone. -/
theorem read_exact (stream : IStream) (pre rest dst : List Byte) (n : Nat)
    (hgood : stream.good = true) (hbuf : stream.buf = pre ++ rest) (hn : pre.length = n) :
    stream.read dst n = .returned ({ stream with buf := rest }, pre ++ dst.drop n) := by
  subst hn
  simp [IStream.read, hgood, hbuf]

theorem written_write (out : OStream) (src : List Byte) (n : Nat) :
    out.written (out.write src n) = src.take n := by
  simp [OStream.written, OStream.write]

theorem written_append (out : OStream) (bs : List Byte) :
    out.written ⟨out.bytes ++ bs⟩ = bs := by
  simp [OStream.written]

theorem reader_good (bytes : List Byte) (mask : IoState) :
    (IStream.reader bytes mask).good = true := rfl

/-! ## Scalars -/

theorem dataStoreReal_bytes (abi : Abi) (out : OStream) (v : Real) (ctx : Option MooseMesh)
    (hv : v.bytes.length = abi.sizeofReal) :
    dataStoreReal abi out v ctx = ⟨out.bytes ++ v.bytes⟩ := by
  simp [dataStoreReal, OStream.write, ← hv]

/-- Loading a `Real` from a good stream that starts with the bytes of `v`
returns `v` and leaves the cursor behind these bytes. -/
theorem dataLoadReal_framed (abi : Abi) (stream : IStream) (v dst : Real)
    (rest : List Byte) (ctx : Option MooseMesh) (hgood : stream.good = true)
    (hbuf : stream.buf = v.bytes ++ rest) (hv : v.bytes.length = abi.sizeofReal)
    (hdst : dst.bytes.length = abi.sizeofReal) :
    dataLoadReal abi stream dst ctx = .returned ({ stream with buf := rest }, v) := by
  unfold dataLoadReal
  rw [read_exact stream v.bytes rest dst.bytes abi.sizeofReal hgood hbuf hv]
  simp [List.drop_eq_nil_of_le (le_of_eq hdst)]

/-! ## Text -/

theorem resize_length (v : CString) (n : Nat) : (v.resize n).length = n := by
  simp only [CString.resize, List.length_append, List.length_take, List.length_replicate]
  omega

theorem dataStoreString_bytes (abi : Abi) (out : OStream) (v : CString)
    (ctx : Option MooseMesh) (hlen : v.length < range abi.sizeofUInt) :
    dataStoreString abi out v ctx
      = ⟨out.bytes ++ (abi.objectBytes abi.sizeofUInt v.length ++ v)⟩ := by
  have h1 : (abi.objectBytes abi.sizeofUInt v.length).take abi.sizeofUInt
      = abi.objectBytes abi.sizeofUInt v.length :=
    List.take_of_length_le (le_of_eq (objectBytes_length abi _ _))
  simp [dataStoreString, OStream.write, Nat.mod_eq_of_lt hlen, c_str, h1]

/-- Loading a string from a good stream that starts with the encoding of `v`
returns `v` and leaves the cursor behind the encoding. -/
theorem dataLoadString_framed (abi : Abi) (stream : IStream) (v dst : CString)
    (rest : List Byte) (ctx : Option MooseMesh) (hgood : stream.good = true)
    (hbuf : stream.buf = (abi.objectBytes abi.sizeofUInt v.length ++ v) ++ rest)
    (hlen : v.length < range abi.sizeofUInt) :
    dataLoadString abi stream dst ctx = .returned ({ stream with buf := rest }, v) := by
  simp only [dataLoadString]
  have hbuf1 : stream.buf = abi.objectBytes abi.sizeofUInt v.length ++ (v ++ rest) := by
    rw [hbuf, List.append_assoc]
  rw [read_exact stream _ (v ++ rest) _ abi.sizeofUInt hgood hbuf1
    (objectBytes_length abi _ _)]
  have hz : (abi.objectBytes abi.sizeofUInt 0).drop abi.sizeofUInt = [] :=
    List.drop_eq_nil_of_le (le_of_eq (objectBytes_length abi _ _))
  simp only [hz, List.append_nil, objectValue_objectBytes_of_lt abi _ _ hlen]
  rw [read_exact { stream with buf := v ++ rest } v rest _ v.length hgood rfl rfl]
  simp [List.drop_eq_nil_of_le (le_of_eq (resize_length dst v.length))]

/-! ## Dense matrices -/

/-- The bytes of a list of reals, one after the other. -/
theorem flatMap_bytes_cons (r : Real) (rs : List Real) :
    (r :: rs).flatMap Real.bytes = r.bytes ++ rs.flatMap Real.bytes := by
  simp [List.flatMap]

theorem getD_append_cons (done ps : List Real) (p d : Real) :
    (done ++ p :: ps).getD done.length d = p := by
  induction done with
  | nil => rfl
  | cons a done ih => simpa using ih

theorem set_append_cons (done ps : List Real) (p r : Real) :
    (done ++ p :: ps).set done.length r = done ++ r :: ps := by
  simp [List.set_append_right]

/-- One row of the store loop writes the bytes of the next `cnt` stored
entries. -/
theorem store_row (abi : Abi) (ctx : Option MooseMesh) (v : DenseMatrix) (i : Nat) :
    ∀ (cnt j0 : Nat) (done pending : List Real) (s : OStream),
      v.val = done ++ pending → done.length = i * v.n + j0 → cnt ≤ pending.length →
      (∀ r ∈ pending, r.bytes.length = abi.sizeofReal) →
      forEach cnt j0 (fun j stream => dataStoreReal abi stream (v.get i j) ctx) s
        = ⟨s.bytes ++ (pending.take cnt).flatMap Real.bytes⟩ := by
  intro cnt
  induction cnt with
  | zero => intro j0 done pending s _ _ _ _; simp [forEach]
  | succ k ih =>
    intro j0 done pending s hval hlen hcnt hsz
    cases pending with
    | nil => simp at hcnt
    | cons p ps =>
      have hget : v.get i j0 = p := by
        unfold DenseMatrix.get
        rw [hval, ← hlen]
        exact getD_append_cons done ps p default
      have hp : p.bytes.length = abi.sizeofReal := hsz p (List.mem_cons_self _ _)
      have hstep := ih (j0 + 1) (done ++ [p]) ps (dataStoreReal abi s p ctx)
        (by rw [hval]; simp) (by simp [hlen]; omega)
        (by simpa using hcnt) (fun r hr => hsz r (List.mem_cons_of_mem _ hr))
      rw [dataStoreReal_bytes abi s p ctx hp] at hstep
      simp only [forEach, hget, hstep, dataStoreReal_bytes abi s p ctx hp, List.take_succ_cons,
        flatMap_bytes_cons, List.append_assoc]

/-- The nested store loops write the bytes of all the stored entries. -/
theorem store_rows (abi : Abi) (ctx : Option MooseMesh) (v : DenseMatrix) :
    ∀ (rows i0 : Nat) (done pending : List Real) (s : OStream),
      v.val = done ++ pending → done.length = i0 * v.n → rows * v.n ≤ pending.length →
      (∀ r ∈ pending, r.bytes.length = abi.sizeofReal) →
      forEach rows i0 (fun i stream =>
          forEach v.n 0 (fun j stream => dataStoreReal abi stream (v.get i j) ctx) stream) s
        = ⟨s.bytes ++ (pending.take (rows * v.n)).flatMap Real.bytes⟩ := by
  intro rows
  induction rows with
  | zero => intro i0 done pending s _ _ _ _; simp [forEach]
  | succ k ih =>
    intro i0 done pending s hval hlen hcnt hsz
    have hn : v.n ≤ pending.length := by
      have : (k + 1) * v.n = k * v.n + v.n := by ring
      omega
    have hrow := store_row abi ctx v i0 v.n 0 done pending s hval (by simpa using hlen) hn hsz
    have hsplit : pending = pending.take v.n ++ pending.drop v.n :=
      (List.take_append_drop _ _).symm
    have hstep := ih (i0 + 1) (done ++ pending.take v.n) (pending.drop v.n)
      ⟨s.bytes ++ (pending.take v.n).flatMap Real.bytes⟩
      (by rw [List.append_assoc, ← hsplit]; exact hval)
      (by simp [hlen, Nat.min_eq_left hn]; ring)
      (by simp only [List.length_drop]
          have : (k + 1) * v.n = k * v.n + v.n := by ring
          omega)
      (fun r hr => hsz r (List.mem_of_mem_drop hr))
    simp only [forEach, hrow, hstep, List.append_assoc]
    congr 2
    rw [← List.flatMap_append]
    congr 1
    have h2 : (k + 1) * v.n = v.n + k * v.n := by ring
    rw [h2, List.take_add]

/-- What `dataStore` writes for a well-formed matrix: the two dimensions and
the entries in storage order. -/
theorem dataStoreDenseMatrix_bytes (abi : Abi) (out : OStream) (v : DenseMatrix)
    (ctx : Option MooseMesh) (hlen : v.val.length = v.m * v.n)
    (hsz : ∀ r ∈ v.val, r.bytes.length = abi.sizeofReal) :
    dataStoreDenseMatrix abi out v ctx
      = ⟨out.bytes ++ (abi.objectBytes abi.sizeofUInt v.m ++
          (abi.objectBytes abi.sizeofUInt v.n ++ v.val.flatMap Real.bytes))⟩ := by
  have h1 : ∀ x, (abi.objectBytes abi.sizeofUInt x).take abi.sizeofUInt
      = abi.objectBytes abi.sizeofUInt x := fun x =>
    List.take_of_length_le (le_of_eq (objectBytes_length abi _ _))
  simp only [dataStoreDenseMatrix, OStream.write, h1]
  rw [store_rows abi ctx v v.m 0 [] v.val _ rfl (by simp) (le_of_eq hlen.symm) hsz]
  simp [← hlen]

theorem zero_bytes_length (abi : Abi) : (Real.zero abi).bytes.length = abi.sizeofReal := by
  simp [Real.zero]

/-- One pass through the body of the load loop, on a good stream that starts
with the bytes of `r`. -/
theorem load_entry (abi : Abi) (i j : Nat) (stream : IStream) (v : DenseMatrix) (r : Real)
    (rest : List Byte) (hgood : stream.good = true) (hbuf : stream.buf = r.bytes ++ rest)
    (hr : r.bytes.length = abi.sizeofReal) :
    dataLoadDenseMatrixEntry abi i j (stream, v)
      = .returned ({ stream with buf := rest }, v.set i j r) := by
  simp only [dataLoadDenseMatrixEntry]
  rw [read_exact stream r.bytes rest _ abi.sizeofReal hgood hbuf hr]
  simp [List.drop_eq_nil_of_le (le_of_eq (zero_bytes_length abi))]

/-- One row of the load loop fills the next `cnt` stored entries from the
stream. -/
theorem load_row (abi : Abi) (i : Nat) :
    ∀ (cnt j0 : Nat) (done pending rs : List Real) (rest : List Byte) (stream : IStream)
      (v : DenseMatrix),
      stream.good = true → stream.buf = rs.flatMap Real.bytes ++ rest → rs.length = cnt →
      (∀ r ∈ rs, r.bytes.length = abi.sizeofReal) →
      v.val = done ++ pending → done.length = i * v.n + j0 → cnt ≤ pending.length →
      forEachM cnt j0 (fun j st => dataLoadDenseMatrixEntry abi i j st) (stream, v)
        = .returned ({ stream with buf := rest },
            { v with val := done ++ (rs ++ pending.drop cnt) }) := by
  intro cnt
  induction cnt with
  | zero =>
    intro j0 done pending rs rest stream v _ hbuf hrs _ hval _ _
    have : rs = [] := List.length_eq_zero.mp hrs
    subst this
    simp only [List.flatMap_nil, List.nil_append] at hbuf
    simp [forEachM, ← hval, ← hbuf]
  | succ k ih =>
    intro j0 done pending rs rest stream v hgood hbuf hrs hsz hval hlen hcnt
    cases rs with
    | nil => simp at hrs
    | cons r rs1 =>
      cases pending with
      | nil => simp at hcnt
      | cons p ps =>
        have hr : r.bytes.length = abi.sizeofReal := hsz r (List.mem_cons_self _ _)
        have hbuf1 : stream.buf = r.bytes ++ (rs1.flatMap Real.bytes ++ rest) := by
          rw [hbuf, flatMap_bytes_cons, List.append_assoc]
        have hset : (v.set i j0 r).val = (done ++ [r]) ++ ps := by
          simp only [DenseMatrix.set, hval, ← hlen, set_append_cons]
          simp
        have hstep := ih (j0 + 1) (done ++ [r]) ps rs1 rest
          { stream with buf := rs1.flatMap Real.bytes ++ rest } (v.set i j0 r) hgood rfl
          (by simpa using hrs) (fun x hx => hsz x (List.mem_cons_of_mem _ hx)) hset
          (by simp [hlen, DenseMatrix.set]; omega) (by simpa using hcnt)
        simp only [forEachM, load_entry abi i j0 stream v r _ hgood hbuf1 hr, hstep]
        simp [DenseMatrix.set]

/-- The nested load loops fill all the stored entries from the stream. -/
theorem load_rows (abi : Abi) (n : Nat) :
    ∀ (rows i0 : Nat) (done pending rs : List Real) (rest : List Byte) (stream : IStream)
      (v : DenseMatrix),
      stream.good = true → stream.buf = rs.flatMap Real.bytes ++ rest →
      rs.length = rows * n → (∀ r ∈ rs, r.bytes.length = abi.sizeofReal) →
      v.n = n → v.val = done ++ pending → done.length = i0 * n → rows * n ≤ pending.length →
      forEachM rows i0 (fun i st =>
          forEachM n 0 (fun j st => dataLoadDenseMatrixEntry abi i j st) st) (stream, v)
        = .returned ({ stream with buf := rest },
            { v with val := done ++ (rs ++ pending.drop (rows * n)) }) := by
  intro rows
  induction rows with
  | zero =>
    intro i0 done pending rs rest stream v _ hbuf hrs _ _ hval _ _
    have : rs = [] := List.length_eq_zero.mp (by simpa using hrs)
    subst this
    simp only [List.flatMap_nil, List.nil_append] at hbuf
    simp [forEachM, ← hval, ← hbuf]
  | succ k ih =>
    intro i0 done pending rs rest stream v hgood hbuf hrs hsz hn hval hlen hcnt
    have hk : (k + 1) * n = n + k * n := by ring
    have hrs1 : (rs.take n).length = n := by
      rw [List.length_take]; omega
    have hbuf1 : stream.buf
        = (rs.take n).flatMap Real.bytes ++ ((rs.drop n).flatMap Real.bytes ++ rest) := by
      rw [hbuf, ← List.append_assoc, ← List.flatMap_append, List.take_append_drop]
    have hrow := load_row abi i0 n 0 done pending (rs.take n) _ stream v hgood hbuf1 hrs1
      (fun x hx => hsz x (List.mem_of_mem_take hx)) hval (by simpa [hn] using hlen)
      (by omega)
    have hstep := ih (i0 + 1) (done ++ rs.take n) (pending.drop n) (rs.drop n) rest
      { stream with buf := (rs.drop n).flatMap Real.bytes ++ rest }
      { v with val := done ++ (rs.take n ++ pending.drop n) } hgood rfl
      (by rw [List.length_drop]; omega) (fun x hx => hsz x (List.mem_of_mem_drop hx))
      hn (by simp) (by simp [hlen, hrs1]; ring) (by rw [List.length_drop]; omega)
    simp only [forEachM, hrow, hstep]
    have h3 : (pending.drop n).drop (k * n) = pending.drop ((k + 1) * n) := by
      rw [List.drop_drop, hk]
    simp only [h3, List.append_assoc]
    rw [← List.append_assoc (List.take n rs), List.take_append_drop]

/-- Loading a matrix from a good stream that starts with the encoding of a
well-formed `v` returns `v` and leaves the cursor behind the encoding. -/
theorem dataLoadDenseMatrix_framed (abi : Abi) (stream : IStream) (v dst : DenseMatrix)
    (rest : List Byte) (ctx : Option MooseMesh) (hgood : stream.good = true)
    (hbuf : stream.buf = (abi.objectBytes abi.sizeofUInt v.m ++
      (abi.objectBytes abi.sizeofUInt v.n ++ v.val.flatMap Real.bytes)) ++ rest)
    (hv : v.WellFormed abi) :
    dataLoadDenseMatrix abi stream dst ctx = .returned ({ stream with buf := rest }, v) := by
  obtain ⟨hm, hn, hlen, hsz⟩ := hv
  simp only [dataLoadDenseMatrix]
  have hz : (abi.objectBytes abi.sizeofUInt 0).drop abi.sizeofUInt = [] :=
    List.drop_eq_nil_of_le (le_of_eq (objectBytes_length abi _ _))
  rw [read_exact stream (abi.objectBytes abi.sizeofUInt v.m)
    (abi.objectBytes abi.sizeofUInt v.n ++ (v.val.flatMap Real.bytes ++ rest)) _
    abi.sizeofUInt hgood (by rw [hbuf]; simp) (objectBytes_length abi _ _)]
  simp only [hz, List.append_nil]
  rw [read_exact ⟨abi.objectBytes abi.sizeofUInt v.n ++ (v.val.flatMap Real.bytes ++ rest),
      stream.state, stream.exceptions⟩
    (abi.objectBytes abi.sizeofUInt v.n) (v.val.flatMap Real.bytes ++ rest) _
    abi.sizeofUInt hgood rfl (objectBytes_length abi _ _)]
  simp only [hz, List.append_nil, objectValue_objectBytes_of_lt abi _ _ hm,
    objectValue_objectBytes_of_lt abi _ _ hn, DenseMatrix.resize]
  rw [load_rows abi v.n v.m 0 [] (List.replicate (v.m * v.n) (Real.zero abi)) v.val rest
    ⟨v.val.flatMap Real.bytes ++ rest, stream.state, stream.exceptions⟩
    ⟨v.m, v.n, List.replicate (v.m * v.n) (Real.zero abi)⟩
    hgood rfl hlen hsz rfl rfl (by simp) (by simp)]
  simp

/-! ## Entity pointers -/

theorem range_pos (w : Nat) : 0 < range w := by
  unfold range
  positivity

theorem invalid_id_lt (abi : Abi) : invalid_id abi < range abi.sizeofDofId := by
  have := range_pos abi.sizeofDofId
  unfold invalid_id
  omega

theorem storeHelper_bytes (abi : Abi) (out : OStream) (id : Nat) (ctx : Option MooseMesh) :
    storeHelper abi out id ctx = ⟨out.bytes ++ abi.objectBytes abi.sizeofDofId id⟩ := by
  simp [storeHelper, OStream.write,
    List.take_of_length_le (le_of_eq (objectBytes_length abi abi.sizeofDofId id))]

/-- Reading an identifier from a good stream that starts with the bytes of
`k` returns `k` and leaves the cursor behind these bytes. -/
theorem loadHelper_framed (abi : Abi) (stream : IStream) (id0 k : Nat) (rest : List Byte)
    (ctx : Option MooseMesh) (hgood : stream.good = true)
    (hbuf : stream.buf = abi.objectBytes abi.sizeofDofId k ++ rest)
    (hk : k < range abi.sizeofDofId) :
    loadHelper abi stream id0 ctx = .returned ({ stream with buf := rest }, k) := by
  simp only [loadHelper]
  rw [read_exact stream _ rest _ abi.sizeofDofId hgood hbuf (objectBytes_length abi _ _)]
  simp [List.drop_eq_nil_of_le (le_of_eq (objectBytes_length abi abi.sizeofDofId id0)),
    objectValue_objectBytes_of_lt abi _ _ hk]

theorem setstate_raised (stream : IStream) (f : IoState) (err : Failure) (s : IStream)
    (h : stream.setstate f = .raised err s) : err = .iosFailure := by
  simp only [IStream.setstate] at h
  split at h
  · injection h with h1 _; exact h1.symm
  · cases h

/-- A `read` is left by no failure other than a stream failure. -/
theorem read_raised (stream : IStream) (dst : List Byte) (n : Nat) (err : Failure)
    (s : IStream × List Byte) (h : stream.read dst n = .raised err s) :
    err = .iosFailure := by
  simp only [IStream.read] at h
  split at h
  · split at h
    · cases hs : IStream.setstate { stream with buf := stream.buf.drop n } ⟨true, true, false⟩ with
      | returned s2 => rw [hs] at h; cases h
      | raised e s2 =>
        rw [hs] at h
        injection h with h1 _
        rw [← h1]
        exact setstate_raised _ _ _ _ hs
    · cases h
  · cases hs : stream.setstate ⟨false, true, false⟩ with
    | returned s2 => rw [hs] at h; cases h
    | raised e s2 =>
      rw [hs] at h
      injection h with h1 _
      rw [← h1]
      exact setstate_raised _ _ _ _ hs

/-- The helper `loadHelper` is left by no failure other than a stream failure. -/
theorem loadHelper_raised (abi : Abi) (stream : IStream) (id0 : Nat) (ctx : Option MooseMesh)
    (err : Failure) (s : IStream × Nat) (h : loadHelper abi stream id0 ctx = .raised err s) :
    err = .iosFailure := by
  unfold loadHelper at h
  cases hr : stream.read (abi.objectBytes abi.sizeofDofId id0) abi.sizeofDofId with
  | returned p => rw [hr] at h; cases h
  | raised e p =>
    rw [hr] at h
    injection h with h1 _
    rw [← h1]
    exact read_raised _ _ _ _ _ hr

/-! ## Failures of the pointer loads -/

theorem elemPtr_error (mesh : MooseMesh) (id : Nat) (err : Failure)
    (h : mesh.elemPtr id = .error err) : err = .unresolvedReference id := by
  unfold MooseMesh.elemPtr at h
  split at h
  · cases h
  · injection h with h1; exact h1.symm

theorem nodePtr_error (mesh : MooseMesh) (id : Nat) (err : Failure)
    (h : mesh.nodePtr id = .error err) : err = .unresolvedReference id := by
  unfold MooseMesh.nodePtr at h
  split at h
  · cases h
  · injection h with h1; exact h1.symm

theorem dataLoadConstElem_no_mooseError (abi : Abi) (st : RefLoad Elem) (mesh : MooseMesh) (msg : String)
    (s : RefLoad Elem) : dataLoadConstElem abi st (some mesh) ≠ .raised (.mooseError msg) s := by
  intro h
  simp only [dataLoadConstElem] at h
  cases hr : loadHelper abi st.stream (invalid_id abi) (some mesh) with
  | raised e p =>
    have he := loadHelper_raised abi _ _ _ _ _ hr
    rw [hr] at h
    subst he
    cases h
  | returned p =>
    obtain ⟨stream1, id⟩ := p
    rw [hr] at h
    simp only at h
    split at h
    · cases hp : mesh.elemPtr id with
      | ok handle => rw [hp] at h; cases h
      | error e =>
        have he := elemPtr_error mesh id e hp
        rw [hp] at h
        subst he
        cases h
    · cases h

theorem dataLoadElem_no_mooseError (abi : Abi) (st : RefLoad Elem) (mesh : MooseMesh) (msg : String)
    (s : RefLoad Elem) : dataLoadElem abi st (some mesh) ≠ .raised (.mooseError msg) s := by
  intro h
  simp only [dataLoadElem] at h
  cases hr : loadHelper abi st.stream (invalid_id abi) (some mesh) with
  | raised e p =>
    have he := loadHelper_raised abi _ _ _ _ _ hr
    rw [hr] at h
    subst he
    cases h
  | returned p =>
    obtain ⟨stream1, id⟩ := p
    rw [hr] at h
    simp only at h
    split at h
    · cases hp : mesh.elemPtr id with
      | ok handle => rw [hp] at h; cases h
      | error e =>
        have he := elemPtr_error mesh id e hp
        rw [hp] at h
        subst he
        cases h
    · cases h

theorem dataLoadConstNode_no_mooseError (abi : Abi) (st : RefLoad Node) (mesh : MooseMesh) (msg : String)
    (s : RefLoad Node) : dataLoadConstNode abi st (some mesh) ≠ .raised (.mooseError msg) s := by
  intro h
  simp only [dataLoadConstNode] at h
  cases hr : loadHelper abi st.stream (invalid_id abi) (some mesh) with
  | raised e p =>
    have he := loadHelper_raised abi _ _ _ _ _ hr
    rw [hr] at h
    subst he
    cases h
  | returned p =>
    obtain ⟨stream1, id⟩ := p
    rw [hr] at h
    simp only at h
    split at h
    · cases hp : mesh.nodePtr id with
      | ok handle => rw [hp] at h; cases h
      | error e =>
        have he := nodePtr_error mesh id e hp
        rw [hp] at h
        subst he
        cases h
    · cases h

theorem dataLoadNode_no_mooseError (abi : Abi) (st : RefLoad Node) (mesh : MooseMesh) (msg : String)
    (s : RefLoad Node) : dataLoadNode abi st (some mesh) ≠ .raised (.mooseError msg) s := by
  intro h
  simp only [dataLoadNode] at h
  cases hr : loadHelper abi st.stream (invalid_id abi) (some mesh) with
  | raised e p =>
    have he := loadHelper_raised abi _ _ _ _ _ hr
    rw [hr] at h
    subst he
    cases h
  | returned p =>
    obtain ⟨stream1, id⟩ := p
    rw [hr] at h
    simp only at h
    split at h
    · cases hp : mesh.nodePtr id with
      | ok handle => rw [hp] at h; cases h
      | error e =>
        have he := nodePtr_error mesh id e hp
        rw [hp] at h
        subst he
        cases h
    · cases h

/-! ## Short reads -/

theorem good_state (stream : IStream) (hgood : stream.good = true) :
    stream.state = ⟨false, false, false⟩ := by
  obtain ⟨buf, ⟨e, f, b⟩, mask⟩ := stream
  simp only [IStream.good, Bool.and_eq_true, Bool.not_eq_true'] at hgood
  obtain ⟨⟨h1, h2⟩, h3⟩ := hgood
  simp_all

/-- Reading `n` bytes from a good stream that holds fewer than `n` bytes
consumes what is there, copies it over the beginning of the destination,
sets `eofbit` and `failbit`, and throws only if the exception mask selects
one of these two bits. -/
theorem read_short (stream : IStream) (dst : List Byte) (n : Nat)
    (hgood : stream.good = true) (hshort : stream.buf.length < n) :
    stream.read dst n
      = if stream.exceptions.eofbit || stream.exceptions.failbit then
          .raised .iosFailure (⟨[], ⟨true, true, false⟩, stream.exceptions⟩,
            stream.buf ++ dst.drop stream.buf.length)
        else
          .returned (⟨[], ⟨true, true, false⟩, stream.exceptions⟩,
            stream.buf ++ dst.drop stream.buf.length) := by
  have hst := good_state stream hgood
  have htake : stream.buf.take n = stream.buf := List.take_of_length_le (le_of_lt hshort)
  have hdrop : stream.buf.drop n = [] := List.drop_eq_nil_of_le (le_of_lt hshort)
  simp only [IStream.read, hgood, if_true, htake, hdrop, hshort, IStream.setstate, hst,
    IoState.or, IoState.meets, Bool.false_or, Bool.true_and, Bool.false_and, Bool.or_false]
  by_cases hsel : (stream.exceptions.eofbit || stream.exceptions.failbit) = true <;>
    simp [hsel]

/-! ## Truncated composites -/

/-- One pass through the body of the load loop on a channel that will run out
of bytes. -/
theorem entry_underrun (abi : Abi) (mask : IoState) (nr nc i j need : Nat) (s : IStream)
    (v : DenseMatrix) (h : Underrun mask nr nc need (.returned (s, v)))
    (hneed : abi.sizeofReal ≤ need) :
    Underrun mask nr nc (need - abi.sizeofReal) (dataLoadDenseMatrixEntry abi i j (s, v)) := by
  obtain ⟨hmask, hm, hn, hcase⟩ := h
  rcases hcase with ⟨hgood, hlen⟩ | ⟨hsel, hst⟩
  · by_cases hfull : abi.sizeofReal ≤ s.buf.length
    · have hr : (s.buf.take abi.sizeofReal).length = abi.sizeofReal := by
        rw [List.length_take]; omega
      rw [load_entry abi i j s v ⟨s.buf.take abi.sizeofReal⟩ (s.buf.drop abi.sizeofReal) hgood
        (List.take_append_drop _ _).symm hr]
      refine ⟨hmask, hm, hn, Or.inl ⟨hgood, ?_⟩⟩
      simp only [List.length_drop]
      omega
    · have hshort : s.buf.length < abi.sizeofReal := by omega
      simp only [dataLoadDenseMatrixEntry, read_short s _ abi.sizeofReal hgood hshort, hmask]
      by_cases hsel : (mask.eofbit || mask.failbit) = true
      · simp only [hsel, if_true]
        exact ⟨rfl, hsel, rfl, hm, hn⟩
      · simp only [hsel]
        exact ⟨rfl, hm, hn, Or.inr ⟨by simpa using hsel, rfl⟩⟩
  · have h1 : mask.eofbit = false ∧ mask.failbit = false := by
      simpa [Bool.or_eq_false_iff] using hsel
    simp only [dataLoadDenseMatrixEntry, IStream.read, IStream.good, hst, IStream.setstate,
      IoState.or, IoState.meets, hmask, h1.1, h1.2]
    simp only [Bool.not_true, Bool.false_and, Bool.and_false, Bool.or_false, Bool.or_true,
      Bool.true_or, Bool.false_eq_true, if_false]
    exact ⟨rfl, hm, hn, Or.inr ⟨hsel, rfl⟩⟩

/-- A loop whose body needs `c` bytes per pass, on a channel that will run
out of bytes. -/
theorem forEachM_underrun (mask : IoState) (nr nc c : Nat)
    (body : Nat → IStream × DenseMatrix → Outcome (IStream × DenseMatrix))
    (hbody : ∀ (i need : Nat) (st : IStream × DenseMatrix),
      Underrun mask nr nc need (.returned st) → c ≤ need →
      Underrun mask nr nc (need - c) (body i st)) :
    ∀ (cnt start need : Nat) (st : IStream × DenseMatrix),
      Underrun mask nr nc need (.returned st) → cnt * c ≤ need →
      Underrun mask nr nc (need - cnt * c) (forEachM cnt start body st) := by
  intro cnt
  induction cnt with
  | zero => intro start need st h _; simpa [forEachM] using h
  | succ k ih =>
    intro start need st h hneed
    have hk : (k + 1) * c = c + k * c := by ring
    have hstep := hbody start need st h (by omega)
    simp only [forEachM]
    cases hb : body start st with
    | returned s1 =>
      rw [hb] at hstep
      have := ih (start + 1) (need - c) s1 hstep (by omega)
      have harith : need - c - k * c = need - (k + 1) * c := by omega
      rw [harith] at this
      exact this
    | raised err s1 =>
      rw [hb] at hstep
      exact hstep

/-- The dense-matrix load on a good channel whose dimension prefix announces
more entry bytes than remain. -/
theorem dataLoadDenseMatrix_underrun (abi : Abi) (stream : IStream) (dst : DenseMatrix)
    (payload : List Byte) (nr nc : Nat) (ctx : Option MooseMesh)
    (hgood : stream.good = true)
    (hbuf : stream.buf = abi.objectBytes abi.sizeofUInt nr ++
      (abi.objectBytes abi.sizeofUInt nc ++ payload))
    (hnr : nr < range abi.sizeofUInt) (hnc : nc < range abi.sizeofUInt)
    (hshort : payload.length < nr * nc * abi.sizeofReal) :
    Underrun stream.exceptions nr nc 0 (dataLoadDenseMatrix abi stream dst ctx) := by
  simp only [dataLoadDenseMatrix]
  have hz : (abi.objectBytes abi.sizeofUInt 0).drop abi.sizeofUInt = [] :=
    List.drop_eq_nil_of_le (le_of_eq (objectBytes_length abi _ _))
  rw [read_exact stream (abi.objectBytes abi.sizeofUInt nr)
    (abi.objectBytes abi.sizeofUInt nc ++ payload) _ abi.sizeofUInt hgood hbuf
    (objectBytes_length abi _ _)]
  simp only [hz, List.append_nil]
  rw [read_exact ⟨abi.objectBytes abi.sizeofUInt nc ++ payload, stream.state, stream.exceptions⟩
    (abi.objectBytes abi.sizeofUInt nc) payload _ abi.sizeofUInt hgood rfl
    (objectBytes_length abi _ _)]
  simp only [hz, List.append_nil, objectValue_objectBytes_of_lt abi _ _ hnr,
    objectValue_objectBytes_of_lt abi _ _ hnc, DenseMatrix.resize]
  have hrow : ∀ (i need : Nat) (st : IStream × DenseMatrix),
      Underrun stream.exceptions nr nc need (.returned st) → nc * abi.sizeofReal ≤ need →
      Underrun stream.exceptions nr nc (need - nc * abi.sizeofReal)
        (forEachM nc 0 (fun j st => dataLoadDenseMatrixEntry abi i j st) st) := by
    intro i need st h hneed
    exact forEachM_underrun stream.exceptions nr nc abi.sizeofReal
      (fun j st => dataLoadDenseMatrixEntry abi i j st)
      (fun j need st h hneed => entry_underrun abi _ nr nc i j need st.1 st.2 h hneed)
      nc 0 need st h hneed
  have hall := forEachM_underrun stream.exceptions nr nc (nc * abi.sizeofReal)
    (fun i st => forEachM nc 0 (fun j st => dataLoadDenseMatrixEntry abi i j st) st) hrow
    nr 0 (nr * nc * abi.sizeofReal)
    (⟨payload, stream.state, stream.exceptions⟩,
      ⟨nr, nc, List.replicate (nr * nc) (Real.zero abi)⟩)
    ⟨rfl, rfl, rfl, Or.inl ⟨hgood, hshort⟩⟩ (le_of_eq (by ring))
  have harith : nr * nc * abi.sizeofReal - nr * (nc * abi.sizeofReal) = 0 := by
    rw [Nat.mul_assoc]; omega
  rw [harith] at hall
  exact hall

/-- What an outcome of a load that ran out of bytes looks like from outside. -/
theorem underrun_zero (mask : IoState) (nr nc : Nat) (o : Outcome (IStream × DenseMatrix))
    (h : Underrun mask nr nc 0 o) :
    o.isReturned = !(mask.eofbit || mask.failbit) ∧ o.state.1.state = ⟨true, true, false⟩ ∧
      o.state.2.m = nr ∧ o.state.2.n = nc := by
  cases o with
  | returned st =>
    obtain ⟨s, v⟩ := st
    obtain ⟨_, hm, hn, hcase⟩ := h
    rcases hcase with ⟨_, hlen⟩ | ⟨hsel, hst⟩
    · omega
    · simp [Outcome.isReturned, Outcome.state, hsel, hst, hm, hn]
  | raised err st =>
    obtain ⟨s, v⟩ := st
    obtain ⟨_, hsel, hst, hm, hn⟩ := h
    simp [Outcome.isReturned, Outcome.state, hsel, hst, hm, hn]

/-! ## Over-long strings -/

/-- What `dataStore` writes for any string: the length reduced to an
`unsigned int`, then that many of its first chars. -/
theorem dataStoreString_bytes_any (abi : Abi) (out : OStream) (v : CString)
    (ctx : Option MooseMesh) :
    dataStoreString abi out v ctx
      = ⟨out.bytes ++ (abi.objectBytes abi.sizeofUInt (v.length % range abi.sizeofUInt)
          ++ v.take (v.length % range abi.sizeofUInt))⟩ := by
  have h1 : ∀ x, (abi.objectBytes abi.sizeofUInt x).take abi.sizeofUInt
      = abi.objectBytes abi.sizeofUInt x := fun x =>
    List.take_of_length_le (le_of_eq (objectBytes_length abi _ _))
  have h2 : (v ++ [0]).take (v.length % range abi.sizeofUInt)
      = v.take (v.length % range abi.sizeofUInt) :=
    List.take_append_of_le_length (Nat.mod_le _ _)
  simp [dataStoreString, OStream.write, c_str, h1, h2]

theorem take_mod_length (abi : Abi) (v : CString) :
    (v.take (v.length % range abi.sizeofUInt)).length = v.length % range abi.sizeofUInt := by
  rw [List.length_take]
  exact Nat.min_eq_left (Nat.mod_le _ _)

/-! ## Text buffers -/

/-- What `dataStore` writes for a text buffer: the size of its contents as a
`size_t`, then its contents. -/
theorem dataStoreStringstream_bytes (abi : Abi) (out : OStream) (s : stringstream)
    (ctx : Option MooseMesh) :
    dataStoreStringstream abi out s ctx
      = ⟨out.bytes ++ (abi.objectBytes abi.sizeofSizeT s.str.length ++ s.str)⟩ := by
  have h1 : (abi.objectBytes abi.sizeofSizeT s.str.length).take abi.sizeofSizeT
      = abi.objectBytes abi.sizeofSizeT s.str.length :=
    List.take_of_length_le (le_of_eq (objectBytes_length abi _ _))
  simp [dataStoreStringstream, OStream.write, c_str, h1]

/-- Loading a text buffer from a good stream that starts with the encoding of
the contents `b` leaves the cursor behind the encoding and ends with the
call `s.write` of `b` on the destination. -/
theorem dataLoadStringstream_framed (abi : Abi) (uninit : Nat → Byte)
    (sentry : IoState → Bool) (stream : IStream)
    (b rest : List Byte) (s : stringstream) (ctx : Option MooseMesh)
    (hgood : stream.good = true)
    (hbuf : stream.buf = (abi.objectBytes abi.sizeofSizeT b.length ++ b) ++ rest)
    (hlen : b.length < range abi.sizeofSizeT) :
    dataLoadStringstream abi uninit sentry stream s ctx
      = match s.write sentry b b.length with
        | .raised err s1 => .raised err ({ stream with buf := rest }, s1)
        | .returned s1 => .returned ({ stream with buf := rest }, s1) := by
  simp only [dataLoadStringstream]
  have hbuf1 : stream.buf = abi.objectBytes abi.sizeofSizeT b.length ++ (b ++ rest) := by
    rw [hbuf, List.append_assoc]
  rw [read_exact stream _ (b ++ rest) _ abi.sizeofSizeT hgood hbuf1
    (objectBytes_length abi _ _)]
  have hz : (abi.objectBytes abi.sizeofSizeT 0).drop abi.sizeofSizeT = [] :=
    List.drop_eq_nil_of_le (le_of_eq (objectBytes_length abi _ _))
  simp only [hz, List.append_nil, objectValue_objectBytes_of_lt abi _ _ hlen]
  rw [read_exact ⟨b ++ rest, stream.state, stream.exceptions⟩ b rest _ b.length hgood rfl rfl]
  have hd : ((List.range b.length).map uninit).drop b.length = [] :=
    List.drop_eq_nil_of_le (by simp)
  simp [hd]

/-- A write at the end of a good text buffer appends. -/
theorem write_at_end (sentry : IoState → Bool) (c b : List Byte) (mask : IoState) :
    (⟨c, c.length, IoState.goodbit, mask⟩ : stringstream).write sentry b b.length
      = .returned ⟨c ++ b, c.length + b.length, IoState.goodbit, mask⟩ := by
  simp [stringstream.write, stringstream.good, IoState.goodbit]

/-- A write on a text buffer that is not good writes nothing: where the
library sets `failbit`, it throws only if the exception mask selects a bit
that is set; where it does not, the buffer is as it was. -/
theorem write_not_good (sentry : IoState → Bool) (s : stringstream) (src : List Byte)
    (n : Nat) (h : s.good = false) :
    s.write sentry src n
      = if sentry s.state then
          if (s.state.or ⟨false, true, false⟩).meets s.exceptions then
            .raised .iosFailure { s with state := s.state.or ⟨false, true, false⟩ }
          else .returned { s with state := s.state.or ⟨false, true, false⟩ }
        else .returned s := by
  simp [stringstream.write, h, stringstream.setstate]

/-! ## Loops as traversals -/

theorem forEach_eq_visit {σ : Type} (body : Nat → σ → σ) :
    ∀ (cnt start : Nat) (s : σ),
      forEach cnt start body s = visit body (List.range' start cnt) s := by
  intro cnt
  induction cnt with
  | zero => intro start s; rfl
  | succ k ih =>
    intro start s
    rw [List.range'_succ]
    simp only [forEach, visit]
    exact ih (start + 1) (body start s)

theorem forEachM_eq_visitM {σ : Type} (body : Nat → σ → Outcome σ) :
    ∀ (cnt start : Nat) (s : σ),
      forEachM cnt start body s = visitM body (List.range' start cnt) s := by
  intro cnt
  induction cnt with
  | zero => intro start s; rfl
  | succ k ih =>
    intro start s
    rw [List.range'_succ]
    simp only [forEachM, visitM]
    cases body start s with
    | returned s1 => exact ih (start + 1) s1
    | raised err s1 => rfl

theorem visit_append {ι σ : Type} (step : ι → σ → σ) (l1 l2 : List ι) (s : σ) :
    visit step (l1 ++ l2) s = visit step l2 (visit step l1 s) := by
  induction l1 generalizing s with
  | nil => rfl
  | cons a l ih => simp only [List.cons_append, visit]; exact ih (step a s)

theorem visit_map {ι κ σ : Type} (step : κ → σ → σ) (f : ι → κ) (l : List ι) (s : σ) :
    visit step (l.map f) s = visit (fun i s => step (f i) s) l s := by
  induction l generalizing s with
  | nil => rfl
  | cons a l ih => simp only [List.map_cons, visit]; exact ih (step (f a) s)

theorem visit_flatMap {ι κ σ : Type} (step : κ → σ → σ) (f : ι → List κ) (l : List ι) (s : σ) :
    visit step (l.flatMap f) s = visit (fun i s => visit step (f i) s) l s := by
  induction l generalizing s with
  | nil => rfl
  | cons a l ih =>
    simp only [List.flatMap_cons, visit_append, visit]
    exact ih (visit step (f a) s)

theorem visitM_append {ι σ : Type} (step : ι → σ → Outcome σ) (l1 l2 : List ι) (s : σ) :
    visitM step (l1 ++ l2) s
      = match visitM step l1 s with
        | .returned s1 => visitM step l2 s1
        | .raised err s1 => .raised err s1 := by
  induction l1 generalizing s with
  | nil => rfl
  | cons a l ih =>
    simp only [List.cons_append, visitM]
    cases step a s with
    | returned s1 => exact ih s1
    | raised err s1 => rfl

theorem visitM_map {ι κ σ : Type} (step : κ → σ → Outcome σ) (f : ι → κ) (l : List ι)
    (s : σ) : visitM step (l.map f) s = visitM (fun i s => step (f i) s) l s := by
  induction l generalizing s with
  | nil => rfl
  | cons a l ih =>
    simp only [List.map_cons, visitM]
    cases step (f a) s with
    | returned s1 => exact ih s1
    | raised err s1 => rfl

theorem visitM_flatMap {ι κ σ : Type} (step : κ → σ → Outcome σ) (f : ι → List κ)
    (l : List ι) (s : σ) :
    visitM step (l.flatMap f) s = visitM (fun i s => visitM step (f i) s) l s := by
  induction l generalizing s with
  | nil => rfl
  | cons a l ih =>
    simp only [List.flatMap_cons, visitM_append, visitM]
    cases visitM step (f a) s with
    | returned s1 => exact ih s1
    | raised err s1 => rfl

/-- Two nested counting loops visit the index pairs row by row. -/
theorem nested_forEach {σ : Type} (body : Nat → Nat → σ → σ) (m n : Nat) (s : σ) :
    forEach m 0 (fun i s => forEach n 0 (fun j s => body i j s) s) s
      = visit (fun p s => body p.1 p.2 s) (rowMajorOrder m n) s := by
  rw [forEach_eq_visit]
  simp only [forEach_eq_visit, rowMajorOrder, visit_flatMap, visit_map, List.range_eq_range']

/-- Two nested counting loops that may fail visit the index pairs row by row. -/
theorem nested_forEachM {σ : Type} (body : Nat → Nat → σ → Outcome σ) (m n : Nat) (s : σ) :
    forEachM m 0 (fun i s => forEachM n 0 (fun j s => body i j s) s) s
      = visitM (fun p s => body p.1 p.2 s) (rowMajorOrder m n) s := by
  rw [forEachM_eq_visitM]
  simp only [forEachM_eq_visitM, rowMajorOrder, visitM_flatMap, visitM_map,
    List.range_eq_range']

theorem mem_rowMajorOrder (m n : Nat) (p : Nat × Nat) :
    p ∈ rowMajorOrder m n ↔ p.1 < m ∧ p.2 < n := by
  obtain ⟨i, j⟩ := p
  simp only [rowMajorOrder, List.mem_flatMap, List.mem_range, List.mem_map, Prod.mk.injEq]
  constructor
  · rintro ⟨a, ha, b, hb, rfl, rfl⟩
    exact ⟨ha, hb⟩
  · rintro ⟨hi, hj⟩
    exact ⟨i, hi, j, hj, rfl, rfl⟩

theorem length_rowMajorOrder (m n : Nat) : (rowMajorOrder m n).length = m * n := by
  induction m with
  | zero => simp [rowMajorOrder]
  | succ k ih =>
    have h : rowMajorOrder (k + 1) n
        = rowMajorOrder k n ++ (List.range n).map (fun j => (k, j)) := by
      simp [rowMajorOrder, List.range_succ, List.flatMap_append]
    rw [h, List.length_append, ih, List.length_map, List.length_range]
    ring

theorem nodup_rowMajorOrder (m n : Nat) : (rowMajorOrder m n).Nodup := by
  have h : rowMajorOrder m n = (List.range m).product (List.range n) := rfl
  rw [h]
  exact List.Nodup.product (List.nodup_range m) (List.nodup_range n)

/-- A traversal whose steps append bytes to the channel appends them in the
order of the traversal. -/
theorem visit_write {ι : Type} (f : ι → List Byte) (k : Nat) (l : List ι) (out : OStream) :
    visit (fun p stream => stream.write (f p) k) l out
      = ⟨out.bytes ++ l.flatMap (fun p => (f p).take k)⟩ := by
  induction l generalizing out with
  | nil => simp [visit]
  | cons a l ih =>
    simp only [visit]
    rw [ih]
    simp only [OStream.write, List.flatMap_cons, List.append_assoc]

theorem written_dataStoreReal (abi : Abi) (out : OStream) (v : Real) (ctx : Option MooseMesh) :
    out.written (dataStoreReal abi out v ctx) = v.bytes.take abi.sizeofReal := by
  simp [dataStoreReal, written_write]

/-! ## Column-major matrices -/

theorem getD_set_same (l : List Real) (k : Nat) (r d : Real) (h : k < l.length) :
    (l.set k r).getD k d = r := by
  simp [List.getD_eq_getElem?_getD, List.getElem?_set, h]

theorem getD_set_other (l : List Real) (k k1 : Nat) (r d : Real) (h : k ≠ k1) :
    (l.set k r).getD k1 d = l.getD k1 d := by
  simp [List.getD_eq_getElem?_getD, List.getElem?_set, h]

theorem cmm_index_lt (R C i j : Nat) (hi : i < R) (hj : j < C) : j * R + i < R * C := by
  have h1 : j * R + i < (j + 1) * R := by
    have : (j + 1) * R = j * R + R := by ring
    omega
  have h2 : (j + 1) * R ≤ C * R := Nat.mul_le_mul_right R hj
  have h3 : C * R = R * C := Nat.mul_comm C R
  omega

theorem cmm_index_inj (R i j i1 j1 : Nat) (hi : i < R) (hi1 : i1 < R)
    (h : j * R + i = j1 * R + i1) : i = i1 ∧ j = j1 := by
  have hR : 0 < R := by omega
  have e1 : (j * R + i) % R = i := by
    rw [Nat.add_comm, Nat.add_mul_mod_self_right]
    exact Nat.mod_eq_of_lt hi
  have e2 : (j1 * R + i1) % R = i1 := by
    rw [Nat.add_comm, Nat.add_mul_mod_self_right]
    exact Nat.mod_eq_of_lt hi1
  have hii : i = i1 := by rw [← e1, ← e2, h]
  subst hii
  have hmul : j * R = j1 * R := by omega
  exact ⟨rfl, Nat.eq_of_mul_eq_mul_right hR hmul⟩

/-- One pass through the body of the column-major load loop, on a good stream
that starts with the bytes of `r`. -/
theorem load_entry_cmm (abi : Abi) (i j : Nat) (stream : IStream) (v : ColumnMajorMatrix)
    (r : Real) (rest : List Byte) (hgood : stream.good = true)
    (hbuf : stream.buf = r.bytes ++ rest) (hr : r.bytes.length = abi.sizeofReal) :
    dataLoadColumnMajorMatrixEntry abi i j (stream, v)
      = .returned ({ stream with buf := rest }, v.set i j r) := by
  simp only [dataLoadColumnMajorMatrixEntry]
  rw [read_exact stream r.bytes rest _ abi.sizeofReal hgood hbuf hr]
  simp [List.drop_eq_nil_of_le (le_of_eq (zero_bytes_length abi))]

/-- Loading the entries at the index pairs `idx` (all different, all inside
the shape of the destination) from a good stream that holds the bytes of
`f p` for each `p` of `idx`, in order: the destination keeps its shape, has
`f p` at each `p` of `idx`, and keeps its other entries. -/
theorem cmm_visit_load (abi : Abi) (f : Nat × Nat → Real) :
    ∀ (idx : List (Nat × Nat)) (stream : IStream) (D : ColumnMajorMatrix) (rest : List Byte),
      stream.good = true →
      stream.buf = idx.flatMap (fun p => (f p).bytes) ++ rest →
      (∀ p ∈ idx, (f p).bytes.length = abi.sizeofReal) →
      idx.Nodup → (∀ p ∈ idx, p.1 < D.n_rows ∧ p.2 < D.n_cols) →
      D.values.length = D.n_rows * D.n_cols →
      ∃ R : ColumnMajorMatrix,
        visitM (fun p st => dataLoadColumnMajorMatrixEntry abi p.1 p.2 st) idx (stream, D)
          = .returned ({ stream with buf := rest }, R) ∧
        R.n_rows = D.n_rows ∧ R.n_cols = D.n_cols ∧ R.values.length = D.values.length ∧
        (∀ p ∈ idx, R.get p.1 p.2 = f p) ∧
        (∀ q : Nat × Nat, q.1 < D.n_rows → q ∉ idx → R.get q.1 q.2 = D.get q.1 q.2) := by
  intro idx
  induction idx with
  | nil =>
    intro stream D rest _ hbuf _ _ _ _
    simp only [List.flatMap_nil, List.nil_append] at hbuf
    refine ⟨D, ?_, rfl, rfl, rfl, ?_, fun _ _ _ => rfl⟩
    · simp [visitM, ← hbuf]
    · intro p hp; cases hp
  | cons p ps ih =>
    intro stream D rest hgood hbuf hsz hnd hin hlen
    have hp := hin p (List.mem_cons_self _ _)
    have hbuf1 : stream.buf
        = (f p).bytes ++ (ps.flatMap (fun p => (f p).bytes) ++ rest) := by
      rw [hbuf, List.flatMap_cons, List.append_assoc]
    have hentry := load_entry_cmm abi p.1 p.2 stream D (f p) _ hgood hbuf1
      (hsz p (List.mem_cons_self _ _))
    have hnd1 := List.nodup_cons.mp hnd
    obtain ⟨R, hR, hrows, hcols, hlenR, hset, hframe⟩ :=
      ih { stream with buf := ps.flatMap (fun p => (f p).bytes) ++ rest } (D.set p.1 p.2 (f p))
        rest hgood rfl (fun q hq => hsz q (List.mem_cons_of_mem _ hq)) hnd1.2
        (fun q hq => hin q (List.mem_cons_of_mem _ hq))
        (by simp [ColumnMajorMatrix.set, hlen])
    have hidx : p.2 * D.n_rows + p.1 < D.values.length := by
      rw [hlen]; exact cmm_index_lt _ _ _ _ hp.1 hp.2
    refine ⟨R, ?_, hrows, hcols, ?_, ?_, ?_⟩
    · simp only [visitM, hentry]
      exact hR
    · rw [hlenR]; simp [ColumnMajorMatrix.set]
    · intro q hq
      rcases List.mem_cons.mp hq with rfl | hq1
      · rw [hframe q hp.1 hnd1.1]
        exact getD_set_same _ _ _ _ hidx
      · exact hset q hq1
    · intro q hq1 hq
      have hne : q ≠ p := fun h => hq (h ▸ List.mem_cons_self _ _)
      have hq2 : q ∉ ps := fun h => hq (List.mem_cons_of_mem _ h)
      rw [hframe q hq1 hq2]
      apply getD_set_other
      intro heq
      have := cmm_index_inj D.n_rows p.1 p.2 q.1 q.2 hp.1 hq1 heq
      exact hne (Prod.ext this.1.symm this.2.symm)

/-- What `dataStore` writes for a column-major matrix: no dimensions, the
entries in logical row-by-row order. -/
theorem dataStoreColumnMajorMatrix_bytes (abi : Abi) (out : OStream) (v : ColumnMajorMatrix)
    (ctx : Option MooseMesh) :
    dataStoreColumnMajorMatrix abi out v ctx
      = ⟨out.bytes ++ (rowMajorOrder v.m v.n).flatMap (fun p =>
          (v.get p.1 p.2).bytes.take abi.sizeofReal)⟩ := by
  simp only [dataStoreColumnMajorMatrix]
  rw [nested_forEach (fun i j (stream : OStream) =>
    stream.write (v.get i j).bytes abi.sizeofReal)]
  exact visit_write (fun p : Nat × Nat => (v.get p.1 p.2).bytes) abi.sizeofReal _ out

/-- The entries of a well-formed column-major matrix inside its shape have
the size of a `Real`. -/
theorem cmm_get_size (abi : Abi) (v : ColumnMajorMatrix) (hv : v.WellFormed abi) (i j : Nat)
    (hi : i < v.n_rows) (hj : j < v.n_cols) : (v.get i j).bytes.length = abi.sizeofReal := by
  have hidx : j * v.n_rows + i < v.values.length := by
    rw [hv.1]; exact cmm_index_lt _ _ _ _ hi hj
  have hget : v.get i j = v.values[j * v.n_rows + i] := by
    simp [ColumnMajorMatrix.get, List.getD_eq_getElem?_getD, List.getElem?_eq_getElem hidx]
  rw [hget]
  exact hv.2 _ (List.getElem_mem _)

/-- A step that keeps a property of the state keeps it along a traversal,
whether the traversal returns or fails. -/
theorem visitM_invariant {ι σ : Type} (P : σ → Prop) (step : ι → σ → Outcome σ)
    (hstep : ∀ i s, P s → P (step i s).state) :
    ∀ (l : List ι) (s : σ), P s → P (visitM step l s).state := by
  intro l
  induction l with
  | nil => intro s hs; exact hs
  | cons a l ih =>
    intro s hs
    have h := hstep a s hs
    simp only [visitM]
    cases hb : step a s with
    | returned s1 => rw [hb] at h; exact ih s1 h
    | raised err s1 => rw [hb] at h; exact h

/-! ## Encoding lengths -/

theorem length_flatMap_const {ι : Type} (f : ι → List Byte) (k : Nat) (l : List ι)
    (h : ∀ p ∈ l, (f p).length = k) : (l.flatMap f).length = l.length * k := by
  induction l with
  | nil => simp
  | cons a l ih =>
    rw [List.flatMap_cons, List.length_append, h a (List.mem_cons_self _ _),
      ih (fun p hp => h p (List.mem_cons_of_mem _ hp)), List.length_cons]
    ring

/-! ## Swapped loads -/

theorem leBytes_leValue (bs : List Byte) : leBytes bs.length (leValue bs) = bs := by
  induction bs with
  | nil => rfl
  | cons b bs ih =>
    have hb : b.val < 256 := b.isLt
    have h1 : (b.val + 256 * leValue bs) % 256 = b.val := by omega
    have h2 : (b.val + 256 * leValue bs) / 256 = leValue bs := by omega
    simp only [List.length_cons, leBytes, leValue, h2, ih]
    congr 1
    apply Fin.ext
    simp only [Fin.ofNat, Fin.val_mk]
    exact h1

/-- An object representation is determined by its value and its width. -/
theorem objectBytes_objectValue (abi : Abi) (w : Nat) (bs : List Byte) (h : bs.length = w) :
    abi.objectBytes w (abi.objectValue bs) = bs := by
  subst h
  unfold Abi.objectBytes Abi.objectValue
  split
  · have := leBytes_leValue bs.reverse
    rw [List.length_reverse] at this
    rw [this, List.reverse_reverse]
  · exact leBytes_leValue bs

/-- When the swapped sequence returns, both of its loads returned. -/
theorem loadTextScalar_returned (abi : Abi) (stream after : IStream) (dstB t : CString)
    (dstA a : Real) (ctx : Option MooseMesh)
    (h : loadTextScalar abi stream dstB dstA ctx = .returned (after, t, a)) :
    ∃ s1 : IStream, dataLoadString abi stream dstB ctx = .returned (s1, t) ∧
      dataLoadReal abi s1 dstA ctx = .returned (after, a) := by
  simp only [loadTextScalar] at h
  cases hs : dataLoadString abi stream dstB ctx with
  | raised err p => rw [hs] at h; cases h
  | returned p =>
    obtain ⟨s1, t1⟩ := p
    rw [hs] at h
    simp only at h
    cases hr : dataLoadReal abi s1 dstA ctx with
    | raised err q => rw [hr] at h; cases h
    | returned q =>
      obtain ⟨s2, a1⟩ := q
      rw [hr] at h
      simp only [Outcome.returned.injEq, Prod.mk.injEq] at h
      obtain ⟨h1, h2, h3⟩ := h
      subst h1 h2 h3
      exact ⟨s1, rfl, hr⟩

/-- A string load that returns on a good stream with a complete length prefix:
the string has the announced length, and when that many bytes remained it
consists of them and the cursor stands behind them. -/
theorem dataLoadString_returned (abi : Abi) (stream s1 : IStream) (dst t : CString)
    (ctx : Option MooseMesh) (hgood : stream.good = true)
    (hlen : abi.sizeofUInt ≤ stream.buf.length)
    (h : dataLoadString abi stream dst ctx = .returned (s1, t)) :
    t.length = abi.objectValue (stream.buf.take abi.sizeofUInt) ∧
    (t.length ≤ stream.buf.length - abi.sizeofUInt →
      t = (stream.buf.drop abi.sizeofUInt).take t.length ∧
      s1 = { stream with buf := (stream.buf.drop abi.sizeofUInt).drop t.length }) := by
  simp only [dataLoadString] at h
  have hpre : (stream.buf.take abi.sizeofUInt).length = abi.sizeofUInt := by
    rw [List.length_take]; omega
  rw [read_exact stream (stream.buf.take abi.sizeofUInt) (stream.buf.drop abi.sizeofUInt) _
    abi.sizeofUInt hgood (List.take_append_drop _ _).symm hpre] at h
  have hz : (abi.objectBytes abi.sizeofUInt 0).drop abi.sizeofUInt = [] :=
    List.drop_eq_nil_of_le (le_of_eq (objectBytes_length abi _ _))
  simp only [hz, List.append_nil] at h
  generalize abi.objectValue (stream.buf.take abi.sizeofUInt) = n at h ⊢
  have hrest : (stream.buf.drop abi.sizeofUInt).length = stream.buf.length - abi.sizeofUInt :=
    List.length_drop _ _
  by_cases hfull : n ≤ (stream.buf.drop abi.sizeofUInt).length
  · have htk : ((stream.buf.drop abi.sizeofUInt).take n).length = n := by
      rw [List.length_take]; omega
    rw [read_exact ⟨stream.buf.drop abi.sizeofUInt, stream.state, stream.exceptions⟩
      ((stream.buf.drop abi.sizeofUInt).take n) ((stream.buf.drop abi.sizeofUInt).drop n) _ n
      hgood (List.take_append_drop _ _).symm htk] at h
    rw [List.drop_eq_nil_of_le (le_of_eq (resize_length dst n)), List.append_nil] at h
    simp only [Outcome.returned.injEq, Prod.mk.injEq] at h
    obtain ⟨h1, h2⟩ := h
    subst h2
    rw [htk]
    exact ⟨rfl, fun _ => ⟨rfl, h1.symm⟩⟩
  · have hshort : (stream.buf.drop abi.sizeofUInt).length < n := by omega
    rw [read_short ⟨stream.buf.drop abi.sizeofUInt, stream.state, stream.exceptions⟩ _ n hgood
      hshort] at h
    by_cases hsel : (stream.exceptions.eofbit || stream.exceptions.failbit) = true
    · simp [hsel] at h
    · simp only [hsel, Bool.false_eq_true, if_false, Outcome.returned.injEq,
        Prod.mk.injEq] at h
      obtain ⟨_, h2⟩ := h
      have hl : t.length = n := by
        have hr := resize_length dst n
        simp only [← h2, List.length_append, List.length_drop, hr]
        omega
      exact ⟨hl, fun hle => by omega⟩

/-! ## Claims -/

/-- C1. Scalar round trip: for every `Real` value `v` (its object
representation, `sizeof(Real)` bytes), every previous content `dst` of the
destination, every context on either side and every exception mask of the
reader, `dataLoad` applied to a reader over the bytes that `dataStore` wrote
for `v` returns normally with the destination bit-for-bit equal to `v` and
the reader exhausted and still good. -/
theorem dataLoadReal_dataStoreReal (abi : Abi) (v dst : Real) (out : OStream)
    (mask : IoState) (ctxStore ctxLoad : Option MooseMesh)
    (hv : v.bytes.length = abi.sizeofReal) (hdst : dst.bytes.length = abi.sizeofReal) :
    dataLoadReal abi
        (IStream.reader (out.written (dataStoreReal abi out v ctxStore)) mask) dst ctxLoad
      = .returned (IStream.reader [] mask, v) := by
  rw [dataStoreReal_bytes abi out v ctxStore hv, written_append]
  exact dataLoadReal_framed abi (IStream.reader v.bytes mask) v dst [] ctxLoad
    (reader_good _ _) (by simp [IStream.reader]) hv hdst

/-- The round trip of C1 for the double `3.141592653589793`, stored behind one
earlier byte and loaded over a destination of `ff` bytes. -/
theorem dataLoadReal_dataStoreReal_witness :
    (⟨[24, 45, 68, 84, 251, 33, 9, 64]⟩ : Real).bytes.length = lp64.sizeofReal ∧
    (⟨[255, 255, 255, 255, 255, 255, 255, 255]⟩ : Real).bytes.length = lp64.sizeofReal ∧
    dataLoadReal lp64
        (IStream.reader ((⟨[7]⟩ : OStream).written
          (dataStoreReal lp64 ⟨[7]⟩ ⟨[24, 45, 68, 84, 251, 33, 9, 64]⟩ none)) IoState.goodbit)
        ⟨[255, 255, 255, 255, 255, 255, 255, 255]⟩ none
      = .returned (IStream.reader [] IoState.goodbit, ⟨[24, 45, 68, 84, 251, 33, 9, 64]⟩) :=
  ⟨by decide, by decide,
    dataLoadReal_dataStoreReal lp64 ⟨[24, 45, 68, 84, 251, 33, 9, 64]⟩
      ⟨[255, 255, 255, 255, 255, 255, 255, 255]⟩ ⟨[7]⟩ IoState.goodbit none none
      (by decide) (by decide)⟩

/-- C2. Text round trip: for every string `s` whose length is a value of the
`unsigned int` length prefix (`s.length < 2 ^ (8 * sizeof(unsigned int))`,
which is `2 ^ 32` for a 4-byte `unsigned int`; the empty string and strings
with zero bytes included), and every previous content `dst` of the
destination, `dataLoad` applied to a reader over the bytes that `dataStore`
wrote for `s` returns normally with the destination equal to `s`. -/
theorem dataLoadString_dataStoreString (abi : Abi) (s dst : CString) (out : OStream)
    (mask : IoState) (ctxStore ctxLoad : Option MooseMesh)
    (hlen : s.length < 2 ^ (8 * abi.sizeofUInt)) :
    dataLoadString abi
        (IStream.reader (out.written (dataStoreString abi out s ctxStore)) mask) dst ctxLoad
      = .returned (IStream.reader [] mask, s) := by
  rw [dataStoreString_bytes abi out s ctxStore hlen, written_append]
  exact dataLoadString_framed abi (IStream.reader _ mask) s dst [] ctxLoad
    (reader_good _ _) (by simp [IStream.reader]) hlen

/-- The round trip of C2 on a big-endian target for a string with a zero byte,
loaded over a longer destination. -/
theorem dataLoadString_dataStoreString_witness :
    ([114, 0, 115] : CString).length < 2 ^ (8 * be64.sizeofUInt) ∧
    dataLoadString be64
        (IStream.reader ((⟨[]⟩ : OStream).written
          (dataStoreString be64 ⟨[]⟩ [114, 0, 115] none)) IoState.goodbit)
        [1, 2, 3, 4, 5] none
      = .returned (IStream.reader [] IoState.goodbit, [114, 0, 115]) :=
  ⟨by decide, dataLoadString_dataStoreString be64 [114, 0, 115] [1, 2, 3, 4, 5] ⟨[]⟩
    IoState.goodbit none none (by decide)⟩

/-- C3. Dense-matrix round trip: for every `DenseMatrix<Real>` `M` with
`m` rows and `n` columns, `m, n <= 64` (zero included), whose storage holds
`m * n` reals of `sizeof(Real)` bytes, and every previous destination `dst`,
`dataLoad` applied to a reader over the bytes that `dataStore` wrote for `M`
returns normally with a matrix of exactly `m` rows and `n` columns whose
entry `(i, j)` is bit-for-bit `M(i, j)` for all `i < m`, `j < n`
(`unsigned int` being at least one byte wide). -/
theorem dataLoadDenseMatrix_dataStoreDenseMatrix (abi : Abi) (M dst : DenseMatrix)
    (out : OStream) (mask : IoState) (ctxStore ctxLoad : Option MooseMesh)
    (hu : 0 < abi.sizeofUInt) (hm : M.m ≤ 64) (hn : M.n ≤ 64)
    (hlen : M.val.length = M.m * M.n)
    (hsz : ∀ r ∈ M.val, r.bytes.length = abi.sizeofReal) :
    ∃ R : DenseMatrix,
      dataLoadDenseMatrix abi
          (IStream.reader (out.written (dataStoreDenseMatrix abi out M ctxStore)) mask)
          dst ctxLoad
        = .returned (IStream.reader [] mask, R) ∧
      R.m = M.m ∧ R.n = M.n ∧ ∀ i j, i < M.m → j < M.n → R.get i j = M.get i j := by
  have h256 : 256 ≤ range abi.sizeofUInt := by
    rw [range_eq]
    calc 256 = 256 ^ 1 := by norm_num
      _ ≤ 256 ^ abi.sizeofUInt := Nat.pow_le_pow_right (by norm_num) hu
  have hwf : M.WellFormed abi := ⟨by omega, by omega, hlen, hsz⟩
  refine ⟨M, ?_, rfl, rfl, fun _ _ _ _ => rfl⟩
  rw [dataStoreDenseMatrix_bytes abi out M ctxStore hlen hsz, written_append]
  exact dataLoadDenseMatrix_framed abi (IStream.reader _ mask) M dst [] ctxLoad
    (reader_good _ _) (by simp [IStream.reader]) hwf

/-- The round trip of C3 for the matrix `[[1, 2], [3, 4]]`, loaded over a 3 x 1
destination. -/
theorem dataLoadDenseMatrix_dataStoreDenseMatrix_witness :
    0 < lp64.sizeofUInt ∧ matrix1234.m ≤ 64 ∧ matrix1234.n ≤ 64 ∧
    matrix1234.val.length = matrix1234.m * matrix1234.n ∧
    (∀ r ∈ matrix1234.val, r.bytes.length = lp64.sizeofReal) ∧
    ∃ R : DenseMatrix,
      dataLoadDenseMatrix lp64
          (IStream.reader ((⟨[]⟩ : OStream).written
            (dataStoreDenseMatrix lp64 ⟨[]⟩ matrix1234 none)) IoState.goodbit)
          matrixOnes none
        = .returned (IStream.reader [] IoState.goodbit, R) ∧
      R.m = matrix1234.m ∧ R.n = matrix1234.n ∧
      ∀ i j, i < matrix1234.m → j < matrix1234.n → R.get i j = matrix1234.get i j :=
  ⟨by decide, by decide, by decide, by decide, by decide,
    dataLoadDenseMatrix_dataStoreDenseMatrix lp64 matrix1234 matrixOnes ⟨[]⟩ IoState.goodbit
      none none (by decide) (by decide) (by decide) (by decide) (by decide)⟩

/-- C4. Null-reference round trip: for each of the four pointer types
(`const Elem *`, `Elem *`, `const Node *`, `Node *`), storing a null pointer
returns normally having written the bytes of `invalid_id`, and loading these
bytes with any mesh as context (whatever it resolves, even nothing) returns
normally with the destination null, whatever it was before, and with the
record of identifiers passed to the mesh unchanged: the mesh is not
queried. -/
theorem null_pointer_round_trip (abi : Abi) (out : OStream) (ctxStore : Option MooseMesh)
    (mask : IoState) (mesh : MooseMesh) (dstE : Option Elem) (dstN : Option Node)
    (lookups : List Nat) :
    (dataStoreConstElem abi out none ctxStore
        = .returned ⟨out.bytes ++ abi.objectBytes abi.sizeofDofId (invalid_id abi)⟩ ∧
      dataLoadConstElem abi
          ⟨IStream.reader (out.written (dataStoreConstElem abi out none ctxStore).state) mask,
            dstE, lookups⟩ (some mesh)
        = .returned ⟨IStream.reader [] mask, none, lookups⟩) ∧
    (dataStoreElem abi out none ctxStore
        = .returned ⟨out.bytes ++ abi.objectBytes abi.sizeofDofId (invalid_id abi)⟩ ∧
      dataLoadElem abi
          ⟨IStream.reader (out.written (dataStoreElem abi out none ctxStore).state) mask,
            dstE, lookups⟩ (some mesh)
        = .returned ⟨IStream.reader [] mask, none, lookups⟩) ∧
    (dataStoreConstNode abi out none ctxStore
        = .returned ⟨out.bytes ++ abi.objectBytes abi.sizeofDofId (invalid_id abi)⟩ ∧
      dataLoadConstNode abi
          ⟨IStream.reader (out.written (dataStoreConstNode abi out none ctxStore).state) mask,
            dstN, lookups⟩ (some mesh)
        = .returned ⟨IStream.reader [] mask, none, lookups⟩) ∧
    (dataStoreNode abi out none ctxStore
        = .returned ⟨out.bytes ++ abi.objectBytes abi.sizeofDofId (invalid_id abi)⟩ ∧
      dataLoadNode abi
          ⟨IStream.reader (out.written (dataStoreNode abi out none ctxStore).state) mask,
            dstN, lookups⟩ (some mesh)
        = .returned ⟨IStream.reader [] mask, none, lookups⟩) := by
  have hread := loadHelper_framed abi
    (IStream.reader (abi.objectBytes abi.sizeofDofId (invalid_id abi)) mask) (invalid_id abi)
    (invalid_id abi) [] (some mesh) (reader_good _ _) (by simp [IStream.reader])
    (invalid_id_lt abi)
  simp only [IStream.reader] at hread
  refine ⟨⟨?_, ?_⟩, ⟨?_, ?_⟩, ⟨?_, ?_⟩, ⟨?_, ?_⟩⟩
  · simp [dataStoreConstElem, storeHelper_bytes]
  · simp [dataStoreConstElem, storeHelper_bytes, Outcome.state, written_append,
      dataLoadConstElem, hread, IStream.reader]
  · simp [dataStoreElem, storeHelper_bytes]
  · simp [dataStoreElem, storeHelper_bytes, Outcome.state, written_append,
      dataLoadElem, hread, IStream.reader]
  · simp [dataStoreConstNode, storeHelper_bytes]
  · simp [dataStoreConstNode, storeHelper_bytes, Outcome.state, written_append,
      dataLoadConstNode, hread, IStream.reader]
  · simp [dataStoreNode, storeHelper_bytes]
  · simp [dataStoreNode, storeHelper_bytes, Outcome.state, written_append,
      dataLoadNode, hread, IStream.reader]

/-- C5. Reference identity by id: for every element `E` (resp. node `N`)
whose identifier is valid (a value of `dof_id_type` other than `invalid_id`)
and every mesh that resolves this identifier to the handle `H` (resp. `G`),
storing a pointer to the entity returns normally having written the
identifier, and loading these bytes with that mesh returns normally with the
destination set to exactly the handle the mesh gave, for the four pointer
types, whatever the address of the stored entity and whatever the
destination was before; the mesh was queried once, for that identifier. -/
theorem pointer_round_trip_by_id (abi : Abi) (out : OStream) (ctxStore : Option MooseMesh)
    (mask : IoState) (mesh : MooseMesh) (lookups : List Nat) :
    (∀ (E H : Elem) (dst : Option Elem),
      E.id ≠ invalid_id abi → E.id < range abi.sizeofDofId → mesh.elems E.id = some H →
      (dataStoreConstElem abi out (some E) ctxStore
          = .returned ⟨out.bytes ++ abi.objectBytes abi.sizeofDofId E.id⟩ ∧
        dataLoadConstElem abi
            ⟨IStream.reader (out.written (dataStoreConstElem abi out (some E) ctxStore).state)
              mask, dst, lookups⟩ (some mesh)
          = .returned ⟨IStream.reader [] mask, some H, lookups ++ [E.id]⟩) ∧
      (dataStoreElem abi out (some E) ctxStore
          = .returned ⟨out.bytes ++ abi.objectBytes abi.sizeofDofId E.id⟩ ∧
        dataLoadElem abi
            ⟨IStream.reader (out.written (dataStoreElem abi out (some E) ctxStore).state)
              mask, dst, lookups⟩ (some mesh)
          = .returned ⟨IStream.reader [] mask, some H, lookups ++ [E.id]⟩)) ∧
    (∀ (N G : Node) (dst : Option Node),
      N.id ≠ invalid_id abi → N.id < range abi.sizeofDofId → mesh.nodes N.id = some G →
      (dataStoreConstNode abi out (some N) ctxStore
          = .returned ⟨out.bytes ++ abi.objectBytes abi.sizeofDofId N.id⟩ ∧
        dataLoadConstNode abi
            ⟨IStream.reader (out.written (dataStoreConstNode abi out (some N) ctxStore).state)
              mask, dst, lookups⟩ (some mesh)
          = .returned ⟨IStream.reader [] mask, some G, lookups ++ [N.id]⟩) ∧
      (dataStoreNode abi out (some N) ctxStore
          = .returned ⟨out.bytes ++ abi.objectBytes abi.sizeofDofId N.id⟩ ∧
        dataLoadNode abi
            ⟨IStream.reader (out.written (dataStoreNode abi out (some N) ctxStore).state)
              mask, dst, lookups⟩ (some mesh)
          = .returned ⟨IStream.reader [] mask, some G, lookups ++ [N.id]⟩)) := by
  constructor
  · intro E H dst hE hErange hH
    have hread := loadHelper_framed abi
      (IStream.reader (abi.objectBytes abi.sizeofDofId E.id) mask) (invalid_id abi)
      E.id [] (some mesh) (reader_good _ _) (by simp [IStream.reader]) hErange
    simp only [IStream.reader] at hread
    refine ⟨⟨?_, ?_⟩, ⟨?_, ?_⟩⟩
    · simp [dataStoreConstElem, storeHelper_bytes, hE]
    · simp [dataStoreConstElem, storeHelper_bytes, Outcome.state, written_append,
        dataLoadConstElem, hread, IStream.reader, hE, MooseMesh.elemPtr, hH]
    · simp [dataStoreElem, storeHelper_bytes, hE]
    · simp [dataStoreElem, storeHelper_bytes, Outcome.state, written_append,
        dataLoadElem, hread, IStream.reader, hE, MooseMesh.elemPtr, hH]
  · intro N G dst hN hNrange hG
    have hread := loadHelper_framed abi
      (IStream.reader (abi.objectBytes abi.sizeofDofId N.id) mask) (invalid_id abi)
      N.id [] (some mesh) (reader_good _ _) (by simp [IStream.reader]) hNrange
    simp only [IStream.reader] at hread
    refine ⟨⟨?_, ?_⟩, ⟨?_, ?_⟩⟩
    · simp [dataStoreConstNode, storeHelper_bytes, hN]
    · simp [dataStoreConstNode, storeHelper_bytes, Outcome.state, written_append,
        dataLoadConstNode, hread, IStream.reader, hN, MooseMesh.nodePtr, hG]
    · simp [dataStoreNode, storeHelper_bytes, hN]
    · simp [dataStoreNode, storeHelper_bytes, Outcome.state, written_append,
        dataLoadNode, hread, IStream.reader, hN, MooseMesh.nodePtr, hG]

/-- The round trip of C5 for the element with identifier 42 stored at address
1000, which the mesh holds at address 2000. -/
theorem pointer_round_trip_by_id_witness :
    (⟨1000, 42⟩ : Elem).id ≠ invalid_id lp64 ∧
    (⟨1000, 42⟩ : Elem).id < range lp64.sizeofDofId ∧
    mesh42.elems (⟨1000, 42⟩ : Elem).id = some ⟨2000, 42⟩ ∧
    dataStoreElem lp64 ⟨[]⟩ (some ⟨1000, 42⟩) none
      = .returned ⟨[] ++ lp64.objectBytes lp64.sizeofDofId 42⟩ ∧
    dataLoadElem lp64
        ⟨IStream.reader ((⟨[]⟩ : OStream).written
          (dataStoreElem lp64 ⟨[]⟩ (some ⟨1000, 42⟩) none).state) IoState.goodbit,
          some ⟨1000, 42⟩, []⟩ (some mesh42)
      = .returned ⟨IStream.reader [] IoState.goodbit, some ⟨2000, 42⟩, [] ++ [42]⟩ :=
  ⟨by decide, by decide, by decide,
    ((pointer_round_trip_by_id lp64 ⟨[]⟩ none IoState.goodbit mesh42 []).1 ⟨1000, 42⟩
      ⟨2000, 42⟩ (some ⟨1000, 42⟩) (by decide) (by decide) (by decide)).2⟩

/-- C6. Unresolved reference is an error: whenever the identifier `k` read
from the channel is not the sentinel and the mesh has no element (resp. no
node) with identifier `k`, the element (resp. node) pointer loads, const or
not, are left by the failure `unresolvedReference k`; they do not return, and
the destination is neither set to null nor to a handle: it keeps its previous
value. -/
theorem unresolved_reference_raises (abi : Abi) (mesh : MooseMesh) (stream after : IStream)
    (lookups : List Nat) (k : Nat)
    (hread : loadHelper abi stream (invalid_id abi) (some mesh) = .returned (after, k))
    (hk : k ≠ invalid_id abi) :
    (mesh.elems k = none → ∀ dst : Option Elem,
      dataLoadConstElem abi ⟨stream, dst, lookups⟩ (some mesh)
        = .raised (.unresolvedReference k) ⟨after, dst, lookups ++ [k]⟩ ∧
      dataLoadElem abi ⟨stream, dst, lookups⟩ (some mesh)
        = .raised (.unresolvedReference k) ⟨after, dst, lookups ++ [k]⟩) ∧
    (mesh.nodes k = none → ∀ dst : Option Node,
      dataLoadConstNode abi ⟨stream, dst, lookups⟩ (some mesh)
        = .raised (.unresolvedReference k) ⟨after, dst, lookups ++ [k]⟩ ∧
      dataLoadNode abi ⟨stream, dst, lookups⟩ (some mesh)
        = .raised (.unresolvedReference k) ⟨after, dst, lookups ++ [k]⟩) := by
  constructor
  · intro hE dst
    constructor
    · simp [dataLoadConstElem, hread, hk, MooseMesh.elemPtr, hE]
    · simp [dataLoadElem, hread, hk, MooseMesh.elemPtr, hE]
  · intro hN dst
    constructor
    · simp [dataLoadConstNode, hread, hk, MooseMesh.nodePtr, hN]
    · simp [dataLoadNode, hread, hk, MooseMesh.nodePtr, hN]

/-- The failure of C6 for the identifier 42 and a mesh without entities. -/
theorem unresolved_reference_raises_witness :
    loadHelper lp64 (IStream.reader [42, 0, 0, 0, 9] IoState.goodbit) (invalid_id lp64)
        (some emptyMesh) = .returned (IStream.reader [9] IoState.goodbit, 42) ∧
    42 ≠ invalid_id lp64 ∧ emptyMesh.elems 42 = none ∧
    dataLoadConstElem lp64 ⟨IStream.reader [42, 0, 0, 0, 9] IoState.goodbit, some ⟨1000, 7⟩, []⟩
        (some emptyMesh)
      = .raised (.unresolvedReference 42)
          ⟨IStream.reader [9] IoState.goodbit, some ⟨1000, 7⟩, [] ++ [42]⟩ :=
  ⟨by decide, by decide, by decide,
    ((unresolved_reference_raises lp64 emptyMesh (IStream.reader [42, 0, 0, 0, 9] IoState.goodbit)
      (IStream.reader [9] IoState.goodbit) [] 42 (by decide) (by decide)).1 (by decide)
      (some ⟨1000, 7⟩)).1⟩

/-- C7. Storing an unnamed entity fails atomically: for each of the four
pointer stores, a non-null pointer to an entity whose `id()` is `invalid_id`
makes the store abort by `mooseError` with the channel unchanged (no byte
written, in particular no sentinel); a non-null pointer to an entity with
another id and a null pointer make it return normally having appended exactly
the bytes of one identifier (the id, resp. `invalid_id`), which are
`sizeof(dof_id_type)` bytes. These three cases cover every input, so the
store aborts in the first case only. -/
theorem store_unnamed_entity_aborts (abi : Abi) (out : OStream) (ctx : Option MooseMesh) :
    ((∀ E : Elem, E.id = invalid_id abi →
        dataStoreConstElem abi out (some E) ctx
          = .raised (.mooseError "Can\x27t output Elems with invalid ids!") out) ∧
      (∀ E : Elem, E.id ≠ invalid_id abi →
        dataStoreConstElem abi out (some E) ctx
          = .returned ⟨out.bytes ++ abi.objectBytes abi.sizeofDofId E.id⟩) ∧
      dataStoreConstElem abi out none ctx
        = .returned ⟨out.bytes ++ abi.objectBytes abi.sizeofDofId (invalid_id abi)⟩) ∧
    ((∀ E : Elem, E.id = invalid_id abi →
        dataStoreElem abi out (some E) ctx
          = .raised (.mooseError "Can\x27t output Elems with invalid ids!") out) ∧
      (∀ E : Elem, E.id ≠ invalid_id abi →
        dataStoreElem abi out (some E) ctx
          = .returned ⟨out.bytes ++ abi.objectBytes abi.sizeofDofId E.id⟩) ∧
      dataStoreElem abi out none ctx
        = .returned ⟨out.bytes ++ abi.objectBytes abi.sizeofDofId (invalid_id abi)⟩) ∧
    ((∀ N : Node, N.id = invalid_id abi →
        dataStoreConstNode abi out (some N) ctx
          = .raised (.mooseError "Can\x27t output Nodes with invalid ids!") out) ∧
      (∀ N : Node, N.id ≠ invalid_id abi →
        dataStoreConstNode abi out (some N) ctx
          = .returned ⟨out.bytes ++ abi.objectBytes abi.sizeofDofId N.id⟩) ∧
      dataStoreConstNode abi out none ctx
        = .returned ⟨out.bytes ++ abi.objectBytes abi.sizeofDofId (invalid_id abi)⟩) ∧
    ((∀ N : Node, N.id = invalid_id abi →
        dataStoreNode abi out (some N) ctx
          = .raised (.mooseError "Can\x27t output Nodes with invalid ids!") out) ∧
      (∀ N : Node, N.id ≠ invalid_id abi →
        dataStoreNode abi out (some N) ctx
          = .returned ⟨out.bytes ++ abi.objectBytes abi.sizeofDofId N.id⟩) ∧
      dataStoreNode abi out none ctx
        = .returned ⟨out.bytes ++ abi.objectBytes abi.sizeofDofId (invalid_id abi)⟩) ∧
    ∀ id : Nat, (abi.objectBytes abi.sizeofDofId id).length = abi.sizeofDofId := by
  refine ⟨⟨?_, ?_, ?_⟩, ⟨?_, ?_, ?_⟩, ⟨?_, ?_, ?_⟩, ⟨?_, ?_, ?_⟩, ?_⟩
  · intro E h; simp [dataStoreConstElem, h]
  · intro E h; simp [dataStoreConstElem, h, storeHelper_bytes]
  · simp [dataStoreConstElem, storeHelper_bytes]
  · intro E h; simp [dataStoreElem, h]
  · intro E h; simp [dataStoreElem, h, storeHelper_bytes]
  · simp [dataStoreElem, storeHelper_bytes]
  · intro N h; simp [dataStoreConstNode, h]
  · intro N h; simp [dataStoreConstNode, h, storeHelper_bytes]
  · simp [dataStoreConstNode, storeHelper_bytes]
  · intro N h; simp [dataStoreNode, h]
  · intro N h; simp [dataStoreNode, h, storeHelper_bytes]
  · simp [dataStoreNode, storeHelper_bytes]
  · intro id; exact objectBytes_length abi _ _

/-- C8. Loading a reference without a directory fails immediately: each of
the four pointer loads, called with a null context, aborts by `mooseError`
in the state it was called in (no byte read: the stream and its cursor are
unchanged; the destination pointer is unchanged; the mesh is not queried),
whatever the channel holds; called with a non-null context it is never left
by a `mooseError`. -/
theorem load_without_context_aborts (abi : Abi) (stE : RefLoad Elem) (stN : RefLoad Node) :
    (dataLoadConstElem abi stE none
        = .raised (.mooseError "Can only load Elem objects using a MooseMesh context!") stE ∧
      ∀ (mesh : MooseMesh) (msg : String) (s : RefLoad Elem),
        dataLoadConstElem abi stE (some mesh) ≠ .raised (.mooseError msg) s) ∧
    (dataLoadElem abi stE none
        = .raised (.mooseError "Can only load Elem objects using a MooseMesh context!") stE ∧
      ∀ (mesh : MooseMesh) (msg : String) (s : RefLoad Elem),
        dataLoadElem abi stE (some mesh) ≠ .raised (.mooseError msg) s) ∧
    (dataLoadConstNode abi stN none
        = .raised (.mooseError "Can only load Node objects using a MooseMesh context!") stN ∧
      ∀ (mesh : MooseMesh) (msg : String) (s : RefLoad Node),
        dataLoadConstNode abi stN (some mesh) ≠ .raised (.mooseError msg) s) ∧
    (dataLoadNode abi stN none
        = .raised (.mooseError "Can only load Node objects using a MooseMesh context!") stN ∧
      ∀ (mesh : MooseMesh) (msg : String) (s : RefLoad Node),
        dataLoadNode abi stN (some mesh) ≠ .raised (.mooseError msg) s) :=
  ⟨⟨rfl, fun mesh msg s => dataLoadConstElem_no_mooseError abi stE mesh msg s⟩,
    ⟨rfl, fun mesh msg s => dataLoadElem_no_mooseError abi stE mesh msg s⟩,
    ⟨rfl, fun mesh msg s => dataLoadConstNode_no_mooseError abi stN mesh msg s⟩,
    ⟨rfl, fun mesh msg s => dataLoadNode_no_mooseError abi stN mesh msg s⟩⟩

/-- C9 (as stated) fails: on the target with 4-byte reals, a good reader with
the default exception mask that holds 2 bytes makes `dataLoad(Real)` return
normally; the destination `01 02 03 04` has become `aa bb 03 04`, built from
the short read, and the only trace of the underrun is the stream state. -/
theorem dataLoadReal_short_read_returns :
    (IStream.reader [170, 187] IoState.goodbit).buf.length < lp64Single.sizeofReal ∧
    dataLoadReal lp64Single (IStream.reader [170, 187] IoState.goodbit) ⟨[1, 2, 3, 4]⟩ none
      = .returned (⟨[], ⟨true, true, false⟩, IoState.goodbit⟩, ⟨[170, 187, 3, 4]⟩) := by
  decide

/-- C9 (amended). Underrun handling of the scalar load: for every width
`sizeof(Real)` and every good channel that holds fewer bytes than that, the
load consumes the bytes that remain, copies them over the first bytes of the
destination (whose other bytes keep their previous value) and sets `eofbit`
and `failbit` on the channel; it is left by a stream failure exactly when the
exception mask of the channel selects `eofbit` or `failbit`, and returns
normally otherwise (in particular with the default mask). -/
theorem dataLoadReal_underrun (abi : Abi) (stream : IStream) (dst : Real)
    (ctx : Option MooseMesh) (hgood : stream.good = true)
    (hshort : stream.buf.length < abi.sizeofReal) :
    dataLoadReal abi stream dst ctx
      = if stream.exceptions.eofbit || stream.exceptions.failbit then
          .raised .iosFailure (⟨[], ⟨true, true, false⟩, stream.exceptions⟩,
            ⟨stream.buf ++ dst.bytes.drop stream.buf.length⟩)
        else
          .returned (⟨[], ⟨true, true, false⟩, stream.exceptions⟩,
            ⟨stream.buf ++ dst.bytes.drop stream.buf.length⟩) := by
  simp only [dataLoadReal, read_short stream dst.bytes abi.sizeofReal hgood hshort]
  by_cases hsel : (stream.exceptions.eofbit || stream.exceptions.failbit) = true <;>
    simp [hsel]

/-- The amended C9 on a reader over 2 bytes whose exception mask selects
`failbit`: the load of an 8-byte real raises. -/
theorem dataLoadReal_underrun_witness :
    (IStream.reader [170, 187] ⟨false, true, false⟩).good = true ∧
    (IStream.reader [170, 187] ⟨false, true, false⟩).buf.length < lp64.sizeofReal ∧
    dataLoadReal lp64 (IStream.reader [170, 187] ⟨false, true, false⟩) real314 none
      = if (IStream.reader [170, 187] ⟨false, true, false⟩).exceptions.eofbit
            || (IStream.reader [170, 187] ⟨false, true, false⟩).exceptions.failbit then
          .raised .iosFailure (⟨[], ⟨true, true, false⟩,
              (IStream.reader [170, 187] ⟨false, true, false⟩).exceptions⟩,
            ⟨(IStream.reader [170, 187] ⟨false, true, false⟩).buf
              ++ real314.bytes.drop (IStream.reader [170, 187] ⟨false, true, false⟩).buf.length⟩)
        else
          .returned (⟨[], ⟨true, true, false⟩,
              (IStream.reader [170, 187] ⟨false, true, false⟩).exceptions⟩,
            ⟨(IStream.reader [170, 187] ⟨false, true, false⟩).buf
              ++ real314.bytes.drop (IStream.reader [170, 187] ⟨false, true, false⟩).buf.length⟩) :=
  ⟨by decide, by decide,
    dataLoadReal_underrun lp64 (IStream.reader [170, 187] ⟨false, true, false⟩) real314 none
      (by decide) (by decide)⟩

/-- C10 (as stated) fails: with the default exception mask, a text load whose
prefix announces 5 chars while 2 remain returns normally with the string
resized to 5 chars of which only 2 come from the channel, and a dense-matrix
load whose prefix announces 2 x 2 reals while 11 bytes remain returns normally
with a 2 x 2 matrix holding one entry from the channel, one entry built from
3 bytes, and two zero entries. -/
theorem truncated_composite_returns :
    dataLoadString lp64 (IStream.reader [5, 0, 0, 0, 104, 105] IoState.goodbit) [] none
      = .returned (⟨[], ⟨true, true, false⟩, IoState.goodbit⟩, [104, 105, 0, 0, 0]) ∧
    dataLoadDenseMatrix lp64
        (IStream.reader [2, 0, 0, 0, 2, 0, 0, 0, 0, 0, 0, 0, 0, 0, 240, 63, 1, 2, 3]
          IoState.goodbit) matrixOnes none
      = .returned (⟨[], ⟨true, true, false⟩, IoState.goodbit⟩,
          ⟨2, 2, [⟨[0, 0, 0, 0, 0, 0, 240, 63]⟩, ⟨[1, 2, 3, 0, 0, 0, 0, 0]⟩,
            ⟨[0, 0, 0, 0, 0, 0, 0, 0]⟩, ⟨[0, 0, 0, 0, 0, 0, 0, 0]⟩]⟩) := by
  decide

/-- C10 (amended). Truncated composites: for every text load, and every
dense-matrix load whose announced shape `nr` x `nc` is one a matrix can have
(the number of entries `nr * nc` is a value of `unsigned int`, so that the
product computed by `resize` does not wrap), on a good channel whose length
(resp. dimension) prefix announces more payload bytes than remain, `eofbit`
and `failbit` are set on the channel, and the load is left by a stream
failure exactly when the exception mask of the channel selects one of these
two bits; otherwise (in particular with the default mask) it returns
normally. In both cases the destination has been resized as announced: the
string holds the bytes that remained followed by the rest of the resized
string, the matrix has the announced shape. Nothing is stated for an
announced shape whose number of entries is not a value of `unsigned int`. -/
theorem truncated_composite_load (abi : Abi) (stream : IStream) (payload : List Byte)
    (ctx : Option MooseMesh) (hgood : stream.good = true) :
    (∀ (n : Nat) (dst : CString),
      stream.buf = abi.objectBytes abi.sizeofUInt n ++ payload →
      n < range abi.sizeofUInt → payload.length < n →
      dataLoadString abi stream dst ctx
        = if stream.exceptions.eofbit || stream.exceptions.failbit then
            .raised .iosFailure (⟨[], ⟨true, true, false⟩, stream.exceptions⟩,
              payload ++ (dst.resize n).drop payload.length)
          else
            .returned (⟨[], ⟨true, true, false⟩, stream.exceptions⟩,
              payload ++ (dst.resize n).drop payload.length)) ∧
    (∀ (nr nc : Nat) (dst : DenseMatrix),
      stream.buf = abi.objectBytes abi.sizeofUInt nr ++
        (abi.objectBytes abi.sizeofUInt nc ++ payload) →
      nr < range abi.sizeofUInt → nc < range abi.sizeofUInt →
      nr * nc < range abi.sizeofUInt →
      payload.length < nr * nc * abi.sizeofReal →
      (dataLoadDenseMatrix abi stream dst ctx).isReturned
        = !(stream.exceptions.eofbit || stream.exceptions.failbit) ∧
      (dataLoadDenseMatrix abi stream dst ctx).state.1.state = ⟨true, true, false⟩ ∧
      (dataLoadDenseMatrix abi stream dst ctx).state.2.m = nr ∧
      (dataLoadDenseMatrix abi stream dst ctx).state.2.n = nc) := by
  constructor
  · intro n dst hbuf hn hshort
    simp only [dataLoadString]
    rw [read_exact stream _ payload _ abi.sizeofUInt hgood hbuf (objectBytes_length abi _ _)]
    have hz : (abi.objectBytes abi.sizeofUInt 0).drop abi.sizeofUInt = [] :=
      List.drop_eq_nil_of_le (le_of_eq (objectBytes_length abi _ _))
    simp only [hz, List.append_nil, objectValue_objectBytes_of_lt abi _ _ hn]
    rw [read_short ⟨payload, stream.state, stream.exceptions⟩ _ n hgood hshort]
  · intro nr nc dst hbuf hnr hnc _ hshort
    exact underrun_zero _ nr nc _
      (dataLoadDenseMatrix_underrun abi stream dst payload nr nc ctx hgood hbuf hnr hnc hshort)

/-- The amended C10 on a reader whose exception mask selects `eofbit`: a
string announced as 5 chars with 2 remaining makes the load raise, the
destination already resized; and on a reader whose exception mask selects
`failbit`: a 2 x 2 matrix with 11 payload bytes remaining makes the load
raise, the destination having the shape 2 x 2. -/
theorem truncated_composite_load_witness :
    (IStream.reader [5, 0, 0, 0, 104, 105] ⟨true, false, false⟩).good = true ∧
    (IStream.reader [5, 0, 0, 0, 104, 105] ⟨true, false, false⟩).buf
      = lp64.objectBytes lp64.sizeofUInt 5 ++ [104, 105] ∧
    5 < range lp64.sizeofUInt ∧ ([104, 105] : List Byte).length < 5 ∧
    (dataLoadString lp64 (IStream.reader [5, 0, 0, 0, 104, 105] ⟨true, false, false⟩) [7] none
      = if (IStream.reader [5, 0, 0, 0, 104, 105] ⟨true, false, false⟩).exceptions.eofbit
            || (IStream.reader [5, 0, 0, 0, 104, 105] ⟨true, false, false⟩).exceptions.failbit
        then
          .raised .iosFailure (⟨[], ⟨true, true, false⟩,
              (IStream.reader [5, 0, 0, 0, 104, 105] ⟨true, false, false⟩).exceptions⟩,
            [104, 105] ++ (CString.resize [7] 5).drop ([104, 105] : List Byte).length)
        else
          .returned (⟨[], ⟨true, true, false⟩,
              (IStream.reader [5, 0, 0, 0, 104, 105] ⟨true, false, false⟩).exceptions⟩,
            [104, 105] ++ (CString.resize [7] 5).drop ([104, 105] : List Byte).length)) ∧
    2 * 2 < range lp64.sizeofUInt ∧
    ([0, 0, 0, 0, 0, 0, 240, 63, 1, 2, 3] : List Byte).length < 2 * 2 * lp64.sizeofReal ∧
    ((dataLoadDenseMatrix lp64
        (IStream.reader [2, 0, 0, 0, 2, 0, 0, 0, 0, 0, 0, 0, 0, 0, 240, 63, 1, 2, 3]
          ⟨false, true, false⟩) matrixOnes none).isReturned
      = !((IStream.reader [2, 0, 0, 0, 2, 0, 0, 0, 0, 0, 0, 0, 0, 0, 240, 63, 1, 2, 3]
          ⟨false, true, false⟩).exceptions.eofbit
          || (IStream.reader [2, 0, 0, 0, 2, 0, 0, 0, 0, 0, 0, 0, 0, 0, 240, 63, 1, 2, 3]
          ⟨false, true, false⟩).exceptions.failbit) ∧
    (dataLoadDenseMatrix lp64
        (IStream.reader [2, 0, 0, 0, 2, 0, 0, 0, 0, 0, 0, 0, 0, 0, 240, 63, 1, 2, 3]
          ⟨false, true, false⟩) matrixOnes none).state.1.state = ⟨true, true, false⟩ ∧
    (dataLoadDenseMatrix lp64
        (IStream.reader [2, 0, 0, 0, 2, 0, 0, 0, 0, 0, 0, 0, 0, 0, 240, 63, 1, 2, 3]
          ⟨false, true, false⟩) matrixOnes none).state.2.m = 2 ∧
    (dataLoadDenseMatrix lp64
        (IStream.reader [2, 0, 0, 0, 2, 0, 0, 0, 0, 0, 0, 0, 0, 0, 240, 63, 1, 2, 3]
          ⟨false, true, false⟩) matrixOnes none).state.2.n = 2) :=
  ⟨by decide, by decide, by decide, by decide,
    (truncated_composite_load lp64 (IStream.reader [5, 0, 0, 0, 104, 105] ⟨true, false, false⟩)
      [104, 105] none (by decide)).1 5 [7] (by decide) (by decide) (by decide),
    by decide, by decide,
    (truncated_composite_load lp64
        (IStream.reader [2, 0, 0, 0, 2, 0, 0, 0, 0, 0, 0, 0, 0, 0, 240, 63, 1, 2, 3]
          ⟨false, true, false⟩)
      [0, 0, 0, 0, 0, 0, 240, 63, 1, 2, 3] none (by decide)).2 2 2 matrixOnes (by decide)
      (by decide) (by decide) (by decide) (by decide)⟩

/-- C11 (as stated) fails: for the scalar `0.0` (eight zero bytes) and the
empty text, what is stored is twelve zero bytes, and loading a text and then
a scalar from them returns the empty text and `0.0`, the original values,
with no failure, the channel exhausted and still good. -/
theorem swapped_load_returns_original :
    loadTextScalar lp64
        (IStream.reader ((⟨[]⟩ : OStream).written
          (storeScalarText lp64 ⟨[]⟩ (Real.zero lp64) [] none)) IoState.goodbit)
        [1, 2] real314 none
      = .returned (⟨[], IoState.goodbit, IoState.goodbit⟩, [], Real.zero lp64) := by
  decide

/-- C11 (amended). Sequencing sensitivity: for every scalar `A` and every text
`B` whose length is a value of `unsigned int`, storing `A` then `B` into one
channel and loading the bytes as a text then a scalar returns the pair
`(B, A)` exactly when the bytes of `A` followed by the encoding of `B` are
the same byte sequence as the encoding of `B` followed by the bytes of `A`
(as for `A = 0.0` and the empty `B`); for all other `A` and `B` the swapped
load fails or returns a pair different from `(B, A)`. -/
theorem swapped_load_iff (abi : Abi) (A dstA : Real) (B dstB : CString) (out : OStream)
    (mask : IoState) (ctxStore ctxLoad : Option MooseMesh)
    (hA : A.bytes.length = abi.sizeofReal) (hdA : dstA.bytes.length = abi.sizeofReal)
    (hB : B.length < 2 ^ (8 * abi.sizeofUInt)) :
    (∃ after : IStream,
      loadTextScalar abi
          (IStream.reader (out.written (storeScalarText abi out A B ctxStore)) mask)
          dstB dstA ctxLoad
        = .returned (after, B, A)) ↔
    A.bytes ++ (abi.objectBytes abi.sizeofUInt B.length ++ B)
      = (abi.objectBytes abi.sizeofUInt B.length ++ B) ++ A.bytes := by
  have hstore : out.written (storeScalarText abi out A B ctxStore)
      = A.bytes ++ (abi.objectBytes abi.sizeofUInt B.length ++ B) := by
    simp only [storeScalarText, dataStoreReal_bytes abi out A ctxStore hA,
      dataStoreString_bytes abi _ B ctxStore hB, List.append_assoc]
    exact written_append out _
  rw [hstore]
  constructor
  · rintro ⟨after, h⟩
    obtain ⟨s1, hs, hr⟩ := loadTextScalar_returned abi _ after dstB B dstA A ctxLoad h
    have hlenS : (A.bytes ++ (abi.objectBytes abi.sizeofUInt B.length ++ B)).length
        = abi.sizeofReal + (abi.sizeofUInt + B.length) := by
      simp only [List.length_append, hA, objectBytes_length]
    obtain ⟨hval, hfull⟩ := dataLoadString_returned abi _ s1 dstB B ctxLoad
      (reader_good _ mask) (by simp only [IStream.reader]; omega) hs
    simp only [IStream.reader] at hval hfull
    obtain ⟨hB1, hs1⟩ := hfull (by omega)
    generalize hS : A.bytes ++ (abi.objectBytes abi.sizeofUInt B.length ++ B) = S at *
    have hP : S.take abi.sizeofUInt = abi.objectBytes abi.sizeofUInt B.length := by
      have hPlen : (S.take abi.sizeofUInt).length = abi.sizeofUInt := by
        rw [List.length_take]; omega
      rw [hval]
      exact (objectBytes_objectValue abi _ _ hPlen).symm
    have htail : ((S.drop abi.sizeofUInt).drop B.length).length = abi.sizeofReal := by
      simp only [List.length_drop]; omega
    have hgood1 : s1.good = true := by rw [hs1]; rfl
    have hbuf1 : s1.buf = (⟨(S.drop abi.sizeofUInt).drop B.length⟩ : Real).bytes ++ [] := by
      rw [hs1, List.append_nil]
    have hreal := dataLoadReal_framed abi s1 ⟨(S.drop abi.sizeofUInt).drop B.length⟩ dstA []
      ctxLoad hgood1 hbuf1 htail hdA
    rw [hreal] at hr
    simp only [Outcome.returned.injEq, Prod.mk.injEq] at hr
    have hAb : A.bytes = (S.drop abi.sizeofUInt).drop B.length := by rw [← hr.2]
    calc S = S.take abi.sizeofUInt ++ S.drop abi.sizeofUInt := (List.take_append_drop _ _).symm
      _ = S.take abi.sizeofUInt ++ ((S.drop abi.sizeofUInt).take B.length
            ++ (S.drop abi.sizeofUInt).drop B.length) := by
            rw [List.take_append_drop B.length (S.drop abi.sizeofUInt)]
      _ = abi.objectBytes abi.sizeofUInt B.length ++ (B ++ A.bytes) := by
            rw [hP, ← hB1, ← hAb]
      _ = (abi.objectBytes abi.sizeofUInt B.length ++ B) ++ A.bytes := by
            rw [List.append_assoc]
  · intro hcomm
    rw [hcomm]
    refine ⟨IStream.reader [] mask, ?_⟩
    simp only [loadTextScalar]
    rw [dataLoadString_framed abi (IStream.reader _ mask) B dstB A.bytes ctxLoad
      (reader_good _ _) rfl hB]
    simp only [IStream.reader]
    rw [dataLoadReal_framed abi ⟨A.bytes, IoState.goodbit, mask⟩ A dstA [] ctxLoad rfl
      (List.append_nil _).symm hA hdA]

/-- The amended C11 for `3.14` and `restart`. -/
theorem swapped_load_iff_witness :
    real314.bytes.length = lp64.sizeofReal ∧
    (Real.zero lp64).bytes.length = lp64.sizeofReal ∧
    textRestart.length < 2 ^ (8 * lp64.sizeofUInt) ∧
    ((∃ after : IStream,
      loadTextScalar lp64
          (IStream.reader ((⟨[]⟩ : OStream).written
            (storeScalarText lp64 ⟨[]⟩ real314 textRestart none)) IoState.goodbit)
          [] (Real.zero lp64) none
        = .returned (after, textRestart, real314)) ↔
    real314.bytes ++ (lp64.objectBytes lp64.sizeofUInt textRestart.length ++ textRestart)
      = (lp64.objectBytes lp64.sizeofUInt textRestart.length ++ textRestart)
        ++ real314.bytes) :=
  ⟨by decide, by decide, by decide,
    swapped_load_iff lp64 real314 (Real.zero lp64) textRestart [] ⟨[]⟩ IoState.goodbit none none
      (by decide) (by decide) (by decide)⟩

/-- C12. Exact framing and replay: for every byte sequence `rest`, loading
from what the store wrote for a value followed by `rest` returns the value
and leaves the cursor at the start of `rest`: for a `Real`, for a string
whose length is a value of `unsigned int`, for a well-formed
`DenseMatrix<Real>`, for a null pointer of each of the four pointer types
with any mesh, and for a pointer to an entity with a valid id that the mesh
resolves to that entity. Consequently storing a scalar, a string, a dense
matrix and a null pointer into one channel and loading the same four types
in the same order from a reader over these bytes returns each value
unchanged and leaves the channel exhausted (and still good). -/
theorem exact_framing (abi : Abi) (out : OStream) (rest : List Byte) (mask : IoState)
    (ctxStore : Option MooseMesh) (mesh : MooseMesh) :
    (∀ v dst : Real, v.bytes.length = abi.sizeofReal → dst.bytes.length = abi.sizeofReal →
      dataLoadReal abi
          (IStream.reader (out.written (dataStoreReal abi out v ctxStore) ++ rest) mask)
          dst (some mesh)
        = .returned (IStream.reader rest mask, v)) ∧
    (∀ s dst : CString, s.length < 2 ^ (8 * abi.sizeofUInt) →
      dataLoadString abi
          (IStream.reader (out.written (dataStoreString abi out s ctxStore) ++ rest) mask)
          dst (some mesh)
        = .returned (IStream.reader rest mask, s)) ∧
    (∀ M dst : DenseMatrix, M.WellFormed abi →
      dataLoadDenseMatrix abi
          (IStream.reader (out.written (dataStoreDenseMatrix abi out M ctxStore) ++ rest) mask)
          dst (some mesh)
        = .returned (IStream.reader rest mask, M)) ∧
    (∀ (dstE : Option Elem) (dstN : Option Node) (lookups : List Nat),
      dataLoadConstElem abi
          ⟨IStream.reader
            (out.written (dataStoreConstElem abi out none ctxStore).state ++ rest) mask,
            dstE, lookups⟩ (some mesh)
        = .returned ⟨IStream.reader rest mask, none, lookups⟩ ∧
      dataLoadElem abi
          ⟨IStream.reader
            (out.written (dataStoreElem abi out none ctxStore).state ++ rest) mask,
            dstE, lookups⟩ (some mesh)
        = .returned ⟨IStream.reader rest mask, none, lookups⟩ ∧
      dataLoadConstNode abi
          ⟨IStream.reader
            (out.written (dataStoreConstNode abi out none ctxStore).state ++ rest) mask,
            dstN, lookups⟩ (some mesh)
        = .returned ⟨IStream.reader rest mask, none, lookups⟩ ∧
      dataLoadNode abi
          ⟨IStream.reader
            (out.written (dataStoreNode abi out none ctxStore).state ++ rest) mask,
            dstN, lookups⟩ (some mesh)
        = .returned ⟨IStream.reader rest mask, none, lookups⟩) ∧
    (∀ (E : Elem) (dst : Option Elem) (lookups : List Nat),
      E.id ≠ invalid_id abi → E.id < range abi.sizeofDofId → mesh.elems E.id = some E →
      dataLoadConstElem abi
          ⟨IStream.reader
            (out.written (dataStoreConstElem abi out (some E) ctxStore).state ++ rest) mask,
            dst, lookups⟩ (some mesh)
        = .returned ⟨IStream.reader rest mask, some E, lookups ++ [E.id]⟩ ∧
      dataLoadElem abi
          ⟨IStream.reader
            (out.written (dataStoreElem abi out (some E) ctxStore).state ++ rest) mask,
            dst, lookups⟩ (some mesh)
        = .returned ⟨IStream.reader rest mask, some E, lookups ++ [E.id]⟩) ∧
    (∀ (N : Node) (dst : Option Node) (lookups : List Nat),
      N.id ≠ invalid_id abi → N.id < range abi.sizeofDofId → mesh.nodes N.id = some N →
      dataLoadConstNode abi
          ⟨IStream.reader
            (out.written (dataStoreConstNode abi out (some N) ctxStore).state ++ rest) mask,
            dst, lookups⟩ (some mesh)
        = .returned ⟨IStream.reader rest mask, some N, lookups ++ [N.id]⟩ ∧
      dataLoadNode abi
          ⟨IStream.reader
            (out.written (dataStoreNode abi out (some N) ctxStore).state ++ rest) mask,
            dst, lookups⟩ (some mesh)
        = .returned ⟨IStream.reader rest mask, some N, lookups ++ [N.id]⟩) ∧
    (∀ (a : Real) (s : CString) (M : DenseMatrix) (dst : Replay),
      a.bytes.length = abi.sizeofReal → dst.scalar.bytes.length = abi.sizeofReal →
      s.length < 2 ^ (8 * abi.sizeofUInt) → M.WellFormed abi →
      dst.stream = IStream.reader
        (out.written (storeAll abi out a s M none ctxStore).state) mask →
      (storeAll abi out a s M none ctxStore).isReturned = true ∧
      loadAll abi dst (some mesh)
        = .returned ⟨IStream.reader [] mask, a, s, M, none, dst.lookups⟩) := by
  have hnull := fun (tail : List Byte) => loadHelper_framed abi
    (IStream.reader (abi.objectBytes abi.sizeofDofId (invalid_id abi) ++ tail) mask)
    (invalid_id abi) (invalid_id abi) tail (some mesh) (reader_good _ _) rfl
    (invalid_id_lt abi)
  simp only [IStream.reader] at hnull
  refine ⟨?_, ?_, ?_, ?_, ?_, ?_, ?_⟩
  · intro v dst hv hdst
    rw [dataStoreReal_bytes abi out v ctxStore hv, written_append]
    exact dataLoadReal_framed abi (IStream.reader (v.bytes ++ rest) mask) v dst rest _
      (reader_good _ _) rfl hv hdst
  · intro s dst hs
    rw [dataStoreString_bytes abi out s ctxStore hs, written_append]
    exact dataLoadString_framed abi (IStream.reader _ mask) s dst rest _ (reader_good _ _) rfl hs
  · intro M dst hM
    rw [dataStoreDenseMatrix_bytes abi out M ctxStore hM.2.2.1 hM.2.2.2, written_append]
    exact dataLoadDenseMatrix_framed abi (IStream.reader _ mask) M dst rest _
      (reader_good _ _) rfl hM
  · intro dstE dstN lookups
    have h := hnull rest
    refine ⟨?_, ?_, ?_, ?_⟩
    · simp [dataStoreConstElem, storeHelper_bytes, Outcome.state, written_append,
        dataLoadConstElem, h, IStream.reader]
    · simp [dataStoreElem, storeHelper_bytes, Outcome.state, written_append,
        dataLoadElem, h, IStream.reader]
    · simp [dataStoreConstNode, storeHelper_bytes, Outcome.state, written_append,
        dataLoadConstNode, h, IStream.reader]
    · simp [dataStoreNode, storeHelper_bytes, Outcome.state, written_append,
        dataLoadNode, h, IStream.reader]
  · intro E dst lookups hE hErange hH
    have hread := loadHelper_framed abi
      (IStream.reader (abi.objectBytes abi.sizeofDofId E.id ++ rest) mask) (invalid_id abi)
      E.id rest (some mesh) (reader_good _ _) rfl hErange
    simp only [IStream.reader] at hread
    constructor
    · simp [dataStoreConstElem, storeHelper_bytes, Outcome.state, written_append,
        dataLoadConstElem, hread, IStream.reader, hE, MooseMesh.elemPtr, hH]
    · simp [dataStoreElem, storeHelper_bytes, Outcome.state, written_append,
        dataLoadElem, hread, IStream.reader, hE, MooseMesh.elemPtr, hH]
  · intro N dst lookups hN hNrange hG
    have hread := loadHelper_framed abi
      (IStream.reader (abi.objectBytes abi.sizeofDofId N.id ++ rest) mask) (invalid_id abi)
      N.id rest (some mesh) (reader_good _ _) rfl hNrange
    simp only [IStream.reader] at hread
    constructor
    · simp [dataStoreConstNode, storeHelper_bytes, Outcome.state, written_append,
        dataLoadConstNode, hread, IStream.reader, hN, MooseMesh.nodePtr, hG]
    · simp [dataStoreNode, storeHelper_bytes, Outcome.state, written_append,
        dataLoadNode, hread, IStream.reader, hN, MooseMesh.nodePtr, hG]
  · intro a s M dst ha hda hs hM hstream
    have hstore : storeAll abi out a s M none ctxStore
        = .returned ⟨out.bytes ++ (a.bytes ++
            ((abi.objectBytes abi.sizeofUInt s.length ++ s) ++
              ((abi.objectBytes abi.sizeofUInt M.m ++
                (abi.objectBytes abi.sizeofUInt M.n ++ M.val.flatMap Real.bytes)) ++
                (abi.objectBytes abi.sizeofDofId (invalid_id abi) ++ []))))⟩ := by
      simp only [storeAll, dataStoreReal_bytes abi out a ctxStore ha,
        dataStoreString_bytes abi _ s ctxStore hs,
        dataStoreDenseMatrix_bytes abi _ M ctxStore hM.2.2.1 hM.2.2.2, dataStoreElem,
        storeHelper_bytes, List.append_assoc, List.append_nil]
    rw [hstore] at hstream ⊢
    simp only [Outcome.state, written_append] at hstream
    refine ⟨rfl, ?_⟩
    obtain ⟨stream, scalar, text, matrix, elem, lookups⟩ := dst
    simp only at hstream hda
    subst hstream
    simp only [loadAll]
    rw [dataLoadReal_framed abi (IStream.reader _ mask) a scalar _ (some mesh)
      (reader_good _ _) rfl ha hda]
    simp only [IStream.reader]
    rw [dataLoadString_framed abi ⟨_, IoState.goodbit, mask⟩ s text _ (some mesh) rfl rfl hs]
    simp only
    rw [dataLoadDenseMatrix_framed abi ⟨_, IoState.goodbit, mask⟩ M matrix _ (some mesh) rfl
      rfl hM]
    simp only [dataLoadElem, hnull []]
    simp

/-- The replay of C12 for `3.14`, `restart`, `[[1, 2], [3, 4]]` and a null
pointer, with a mesh without entities and destinations that hold other
values. -/
theorem exact_framing_witness :
    real314.bytes.length = lp64.sizeofReal ∧
    (Real.zero lp64).bytes.length = lp64.sizeofReal ∧
    textRestart.length < 2 ^ (8 * lp64.sizeofUInt) ∧ matrix1234.WellFormed lp64 ∧
    (storeAll lp64 ⟨[]⟩ real314 textRestart matrix1234 none none).isReturned = true ∧
    loadAll lp64
        ⟨IStream.reader ((⟨[]⟩ : OStream).written
          (storeAll lp64 ⟨[]⟩ real314 textRestart matrix1234 none none).state) IoState.goodbit,
          Real.zero lp64, [1, 2], matrixOnes, some ⟨1000, 7⟩, []⟩ (some emptyMesh)
      = .returned ⟨IStream.reader [] IoState.goodbit, real314, textRestart, matrix1234, none,
          []⟩ :=
  ⟨by decide, by decide, by decide, ⟨by decide, by decide, by decide, by decide⟩,
    (exact_framing lp64 ⟨[]⟩ [] IoState.goodbit none emptyMesh).2.2.2.2.2.2 real314 textRestart
      matrix1234
      ⟨IStream.reader ((⟨[]⟩ : OStream).written
        (storeAll lp64 ⟨[]⟩ real314 textRestart matrix1234 none none).state) IoState.goodbit,
        Real.zero lp64, [1, 2], matrixOnes, some ⟨1000, 7⟩, []⟩
      (by decide) (by decide) (by decide) ⟨by decide, by decide, by decide, by decide⟩ rfl⟩

/-- C13. Encoding length is a function of logical content only: each store
appends exactly the following bytes to the channel, and no others (no
padding, no terminator): for a scalar its `sizeof(Real)` bytes; for a string
`s` whose length is a value of `unsigned int`, the length and the chars,
`sizeof(unsigned int) + |s|` bytes; for a text buffer with contents `b`
(whatever its put position and state), the size and the contents,
`sizeof(size_t) + |b|` bytes; for an `m` x `n` dense matrix, the two
dimensions and the entries, `sizeof(unsigned int) * 2 + m * n * sizeof(Real)`
bytes; for an `m` x `n` column-major matrix, the entries,
`m * n * sizeof(Real)` bytes; for a null pointer of each of the four pointer
types the identifier `invalid_id`, and for a pointer to an entity with a
valid id `k` (at whatever address) the identifier `k`, `sizeof(dof_id_type)`
bytes; the one remaining case, a pointer to an entity whose id is
`invalid_id`, appends nothing, the store aborting. The bytes depend on the
logical content alone: not on the address of the entity, not on the put
position or state of the buffer. -/
theorem encoding_length (abi : Abi) (out : OStream) (ctx : Option MooseMesh) :
    (∀ v : Real, v.bytes.length = abi.sizeofReal →
      out.written (dataStoreReal abi out v ctx) = v.bytes ∧
      (out.written (dataStoreReal abi out v ctx)).length = abi.sizeofReal) ∧
    (∀ s : CString, s.length < 2 ^ (8 * abi.sizeofUInt) →
      out.written (dataStoreString abi out s ctx)
        = abi.objectBytes abi.sizeofUInt s.length ++ s ∧
      (out.written (dataStoreString abi out s ctx)).length = abi.sizeofUInt + s.length) ∧
    (∀ (b : List Byte) (pptr : Nat) (state exceptions : IoState),
      out.written (dataStoreStringstream abi out ⟨b, pptr, state, exceptions⟩ ctx)
        = abi.objectBytes abi.sizeofSizeT b.length ++ b ∧
      (out.written (dataStoreStringstream abi out ⟨b, pptr, state, exceptions⟩ ctx)).length
        = abi.sizeofSizeT + b.length) ∧
    (∀ M : DenseMatrix, M.val.length = M.m * M.n →
      (∀ r ∈ M.val, r.bytes.length = abi.sizeofReal) →
      out.written (dataStoreDenseMatrix abi out M ctx)
        = abi.objectBytes abi.sizeofUInt M.m ++
          (abi.objectBytes abi.sizeofUInt M.n ++ M.val.flatMap Real.bytes) ∧
      (out.written (dataStoreDenseMatrix abi out M ctx)).length
        = abi.sizeofUInt * 2 + M.m * M.n * abi.sizeofReal) ∧
    (∀ V : ColumnMajorMatrix, V.WellFormed abi →
      out.written (dataStoreColumnMajorMatrix abi out V ctx)
        = (rowMajorOrder V.m V.n).flatMap (fun p => (V.get p.1 p.2).bytes) ∧
      (out.written (dataStoreColumnMajorMatrix abi out V ctx)).length
        = V.m * V.n * abi.sizeofReal) ∧
    (dataStoreConstElem abi out none ctx
        = .returned ⟨out.bytes ++ abi.objectBytes abi.sizeofDofId (invalid_id abi)⟩ ∧
      dataStoreElem abi out none ctx
        = .returned ⟨out.bytes ++ abi.objectBytes abi.sizeofDofId (invalid_id abi)⟩ ∧
      dataStoreConstNode abi out none ctx
        = .returned ⟨out.bytes ++ abi.objectBytes abi.sizeofDofId (invalid_id abi)⟩ ∧
      dataStoreNode abi out none ctx
        = .returned ⟨out.bytes ++ abi.objectBytes abi.sizeofDofId (invalid_id abi)⟩) ∧
    (∀ k address : Nat, k ≠ invalid_id abi →
      dataStoreConstElem abi out (some ⟨address, k⟩) ctx
        = .returned ⟨out.bytes ++ abi.objectBytes abi.sizeofDofId k⟩ ∧
      dataStoreElem abi out (some ⟨address, k⟩) ctx
        = .returned ⟨out.bytes ++ abi.objectBytes abi.sizeofDofId k⟩ ∧
      dataStoreConstNode abi out (some ⟨address, k⟩) ctx
        = .returned ⟨out.bytes ++ abi.objectBytes abi.sizeofDofId k⟩ ∧
      dataStoreNode abi out (some ⟨address, k⟩) ctx
        = .returned ⟨out.bytes ++ abi.objectBytes abi.sizeofDofId k⟩) ∧
    (∀ address : Nat,
      (dataStoreConstElem abi out (some ⟨address, invalid_id abi⟩) ctx).isReturned = false ∧
      (dataStoreConstElem abi out (some ⟨address, invalid_id abi⟩) ctx).state = out ∧
      (dataStoreElem abi out (some ⟨address, invalid_id abi⟩) ctx).isReturned = false ∧
      (dataStoreElem abi out (some ⟨address, invalid_id abi⟩) ctx).state = out ∧
      (dataStoreConstNode abi out (some ⟨address, invalid_id abi⟩) ctx).isReturned = false ∧
      (dataStoreConstNode abi out (some ⟨address, invalid_id abi⟩) ctx).state = out ∧
      (dataStoreNode abi out (some ⟨address, invalid_id abi⟩) ctx).isReturned = false ∧
      (dataStoreNode abi out (some ⟨address, invalid_id abi⟩) ctx).state = out) ∧
    (∀ k : Nat, (abi.objectBytes abi.sizeofDofId k).length = abi.sizeofDofId) := by
  refine ⟨?_, ?_, ?_, ?_, ?_, ⟨?_, ?_, ?_, ?_⟩, ?_, ?_, fun k => objectBytes_length abi _ k⟩
  · intro v hv
    rw [dataStoreReal_bytes abi out v ctx hv, written_append]
    exact ⟨rfl, hv⟩
  · intro s hs
    rw [dataStoreString_bytes abi out s ctx hs, written_append, List.length_append,
      objectBytes_length]
    exact ⟨rfl, rfl⟩
  · intro b pptr state exceptions
    rw [dataStoreStringstream_bytes, written_append, List.length_append, objectBytes_length]
    exact ⟨rfl, rfl⟩
  · intro M hlen hsz
    rw [dataStoreDenseMatrix_bytes abi out M ctx hlen hsz, written_append]
    refine ⟨rfl, ?_⟩
    simp only [List.length_append, objectBytes_length]
    rw [length_flatMap_const Real.bytes abi.sizeofReal M.val hsz, hlen]
    ring
  · intro V hV
    have hsize : ∀ p ∈ rowMajorOrder V.m V.n,
        (V.get p.1 p.2).bytes.length = abi.sizeofReal := by
      intro p hp
      have hmem := (mem_rowMajorOrder _ _ p).mp hp
      exact cmm_get_size abi V hV p.1 p.2 hmem.1 hmem.2
    have hflat : (rowMajorOrder V.m V.n).flatMap
          (fun p => (V.get p.1 p.2).bytes.take abi.sizeofReal)
        = (rowMajorOrder V.m V.n).flatMap (fun p => (V.get p.1 p.2).bytes) := by
      apply List.flatMap_congr
      intro p hp
      exact List.take_of_length_le (le_of_eq (hsize p hp))
    rw [dataStoreColumnMajorMatrix_bytes, written_append, hflat]
    refine ⟨rfl, ?_⟩
    rw [length_flatMap_const _ abi.sizeofReal _ hsize, length_rowMajorOrder]
  · simp [dataStoreConstElem, storeHelper_bytes]
  · simp [dataStoreElem, storeHelper_bytes]
  · simp [dataStoreConstNode, storeHelper_bytes]
  · simp [dataStoreNode, storeHelper_bytes]
  · intro k address hk
    refine ⟨?_, ?_, ?_, ?_⟩
    · simp [dataStoreConstElem, storeHelper_bytes, hk]
    · simp [dataStoreElem, storeHelper_bytes, hk]
    · simp [dataStoreConstNode, storeHelper_bytes, hk]
    · simp [dataStoreNode, storeHelper_bytes, hk]
  · intro address
    refine ⟨?_, ?_, ?_, ?_, ?_, ?_, ?_, ?_⟩
    · simp [dataStoreConstElem, Outcome.isReturned]
    · simp [dataStoreConstElem, Outcome.state]
    · simp [dataStoreElem, Outcome.isReturned]
    · simp [dataStoreElem, Outcome.state]
    · simp [dataStoreConstNode, Outcome.isReturned]
    · simp [dataStoreConstNode, Outcome.state]
    · simp [dataStoreNode, Outcome.isReturned]
    · simp [dataStoreNode, Outcome.state]

/-- The length of C13 for the matrix `[[1, 2], [3, 4]]` on the 64-bit target:
`4 * 2 + 2 * 2 * 8` bytes. -/
theorem encoding_length_witness :
    matrix1234.val.length = matrix1234.m * matrix1234.n ∧
    (∀ r ∈ matrix1234.val, r.bytes.length = lp64.sizeofReal) ∧
    ((⟨[7]⟩ : OStream).written (dataStoreDenseMatrix lp64 ⟨[7]⟩ matrix1234 none)).length
      = lp64.sizeofUInt * 2 + matrix1234.m * matrix1234.n * lp64.sizeofReal :=
  ⟨by decide, by decide,
    ((encoding_length lp64 ⟨[7]⟩ none).2.2.2.1 matrix1234 (by decide) (by decide)).2⟩

/-- C14. Dense-matrix load fully overwrites the destination: for every good
channel that starts with a complete dense-matrix encoding (the dimensions
and entries of a well-formed matrix `V`, followed by any bytes) and every two
destinations `D1`, `D2` of any shapes and contents, loading into `D1` and
loading into `D2` have the same outcome: both return the same matrix, whose
shape is the pair of dimensions read from the channel and whose entries are
those of the channel; nothing of the previous destination is left. -/
theorem dataLoadDenseMatrix_overwrites (abi : Abi) (stream : IStream) (V D1 D2 : DenseMatrix)
    (rest : List Byte) (ctx1 ctx2 : Option MooseMesh) (hgood : stream.good = true)
    (hbuf : stream.buf = (abi.objectBytes abi.sizeofUInt V.m ++
      (abi.objectBytes abi.sizeofUInt V.n ++ V.val.flatMap Real.bytes)) ++ rest)
    (hV : V.WellFormed abi) :
    dataLoadDenseMatrix abi stream D1 ctx1 = dataLoadDenseMatrix abi stream D2 ctx2 ∧
    ∃ R : DenseMatrix,
      dataLoadDenseMatrix abi stream D1 ctx1 = .returned ({ stream with buf := rest }, R) ∧
      R.m = abi.objectValue (stream.buf.take abi.sizeofUInt) ∧
      R.n = abi.objectValue ((stream.buf.drop abi.sizeofUInt).take abi.sizeofUInt) ∧
      R.val = V.val := by
  have h1 := dataLoadDenseMatrix_framed abi stream V D1 rest ctx1 hgood hbuf hV
  have h2 := dataLoadDenseMatrix_framed abi stream V D2 rest ctx2 hgood hbuf hV
  refine ⟨by rw [h1, h2], V, h1, ?_, ?_, rfl⟩
  · rw [hbuf, List.append_assoc, List.take_left' (objectBytes_length abi _ _),
      objectValue_objectBytes_of_lt abi _ _ hV.1]
  · rw [hbuf, List.append_assoc, List.drop_left' (objectBytes_length abi _ _),
      List.append_assoc, List.take_left' (objectBytes_length abi _ _),
      objectValue_objectBytes_of_lt abi _ _ hV.2.1]

/-- The overwrite of C14 for the encoding of `[[1, 2], [3, 4]]` followed by one
byte, loaded into a 3 x 1 matrix and into a 2 x 2 matrix. -/
theorem dataLoadDenseMatrix_overwrites_witness :
    (IStream.reader ((lp64.objectBytes lp64.sizeofUInt matrix1234.m ++
        (lp64.objectBytes lp64.sizeofUInt matrix1234.n ++ matrix1234.val.flatMap Real.bytes))
        ++ [9]) IoState.goodbit).good = true ∧
    matrix1234.WellFormed lp64 ∧
    dataLoadDenseMatrix lp64
        (IStream.reader ((lp64.objectBytes lp64.sizeofUInt matrix1234.m ++
          (lp64.objectBytes lp64.sizeofUInt matrix1234.n ++ matrix1234.val.flatMap Real.bytes))
          ++ [9]) IoState.goodbit) matrixOnes none
      = dataLoadDenseMatrix lp64
        (IStream.reader ((lp64.objectBytes lp64.sizeofUInt matrix1234.m ++
          (lp64.objectBytes lp64.sizeofUInt matrix1234.n ++ matrix1234.val.flatMap Real.bytes))
          ++ [9]) IoState.goodbit) matrix1234 none :=
  ⟨by decide, ⟨by decide, by decide, by decide, by decide⟩,
    (dataLoadDenseMatrix_overwrites lp64
      (IStream.reader ((lp64.objectBytes lp64.sizeofUInt matrix1234.m ++
        (lp64.objectBytes lp64.sizeofUInt matrix1234.n ++ matrix1234.val.flatMap Real.bytes))
        ++ [9]) IoState.goodbit) matrix1234 matrixOnes matrix1234 [9] none none (by decide) rfl
      ⟨by decide, by decide, by decide, by decide⟩).1⟩

/-- C15. Opaque text-buffer round trip: for every byte string `b` (its length
being a value of `size_t`; the empty string included), storing a
`std::stringstream` whose contents are `b` (wherever its put position is,
whatever its state bits and exception mask) writes the byte count `|b|` as a
`size_t` followed by exactly the bytes of `b`; loading these bytes into a
freshly constructed `std::stringstream` returns normally with a buffer whose
contents are `b`, whatever the indeterminate chars of the intermediate
array and whatever the library does on a stream that is not good; and the
pointer overloads behave as the reference overloads on the pointee. -/
theorem stringstream_round_trip (abi : Abi) (uninit : Nat → Byte) (sentry : IoState → Bool)
    (b : List Byte) (pptr : Nat) (state exceptions : IoState) (out : OStream) (mask : IoState)
    (ctxStore ctxLoad : Option MooseMesh)
    (hb : b.length < 2 ^ (8 * abi.sizeofSizeT)) :
    dataStoreStringstream abi out ⟨b, pptr, state, exceptions⟩ ctxStore
      = ⟨out.bytes ++ (abi.objectBytes abi.sizeofSizeT b.length ++ b)⟩ ∧
    dataLoadStringstream abi uninit sentry
        (IStream.reader
          (out.written (dataStoreStringstream abi out ⟨b, pptr, state, exceptions⟩ ctxStore))
          mask)
        stringstream.fresh ctxLoad
      = .returned (IStream.reader [] mask, ⟨b, b.length, IoState.goodbit, IoState.goodbit⟩) ∧
    (∀ (stream : OStream) (s : stringstream),
      dataStoreStringstreamPtr abi stream s ctxStore
        = dataStoreStringstream abi stream s ctxStore) ∧
    (∀ (stream : IStream) (s : stringstream),
      dataLoadStringstreamPtr abi uninit sentry stream s ctxLoad
        = dataLoadStringstream abi uninit sentry stream s ctxLoad) := by
  refine ⟨dataStoreStringstream_bytes abi out _ ctxStore, ?_, fun _ _ => rfl, fun _ _ => rfl⟩
  rw [dataStoreStringstream_bytes abi out _ ctxStore, written_append]
  have h := dataLoadStringstream_framed abi uninit sentry
    (IStream.reader ((abi.objectBytes abi.sizeofSizeT b.length ++ b) ++ []) mask) b []
    stringstream.fresh ctxLoad (reader_good _ _) rfl hb
  rw [List.append_nil] at h
  have hw := write_at_end sentry [] b IoState.goodbit
  simp only [List.length_nil, List.nil_append, Nat.zero_add] at hw
  have hf : stringstream.fresh = ⟨[], 0, IoState.goodbit, IoState.goodbit⟩ := rfl
  rw [hf] at h
  rw [hw] at h
  simp only at h
  exact h

/-- The round trip of C15 for the buffer `log`, stored from a stream whose put
position is 1 and whose `eofbit` is set. -/
theorem stringstream_round_trip_witness :
    ([108, 111, 103] : List Byte).length < 2 ^ (8 * lp64.sizeofSizeT) ∧
    dataLoadStringstream lp64 (fun _ => 255) (fun _ => true)
        (IStream.reader ((⟨[]⟩ : OStream).written
          (dataStoreStringstream lp64 ⟨[]⟩
            ⟨[108, 111, 103], 1, ⟨true, false, false⟩, IoState.goodbit⟩ none)) IoState.goodbit)
        stringstream.fresh none
      = .returned (IStream.reader [] IoState.goodbit,
          ⟨[108, 111, 103], ([108, 111, 103] : List Byte).length, IoState.goodbit,
            IoState.goodbit⟩) :=
  ⟨by decide,
    (stringstream_round_trip lp64 (fun _ => 255) (fun _ => true) [108, 111, 103] 1
      ⟨true, false, false⟩ IoState.goodbit ⟨[]⟩ IoState.goodbit none none (by decide)).2.1⟩

/-- C16. Dense-matrix layout: for every `m` x `n` `DenseMatrix<Real>` `M`, the
bytes written by `dataStore` are exactly the row count as an `unsigned int`,
the column count as an `unsigned int`, and then, for `i = 0 .. m - 1` and
inside `j = 0 .. n - 1` (row by row), the bytes that `dataStore(Real)` writes
for `M(i, j)`; and `dataLoad`, once it has read the two dimensions and
resized the destination, visits the entries in that same order, each entry
being read by the read that `dataLoad(Real)` performs on a zero `Real` and
then assigned to `v(i, j)`. -/
theorem dense_matrix_layout (abi : Abi) (M : DenseMatrix) (out : OStream)
    (ctx : Option MooseMesh) :
    dataStoreDenseMatrix abi out M ctx
      = ⟨out.bytes ++ (abi.objectBytes abi.sizeofUInt M.m ++
          (abi.objectBytes abi.sizeofUInt M.n ++
            (rowMajorOrder M.m M.n).flatMap (fun p =>
              (⟨[]⟩ : OStream).written (dataStoreReal abi ⟨[]⟩ (M.get p.1 p.2) ctx))))⟩ ∧
    (∀ (i j : Nat) (st : IStream × DenseMatrix),
      dataLoadDenseMatrixEntry abi i j st
        = match dataLoadReal abi st.1 (Real.zero abi) ctx with
          | .returned (stream, r) => .returned (stream, st.2.set i j r)
          | .raised err (stream, _) => .raised err (stream, st.2)) ∧
    (∀ (stream : IStream) (dst : DenseMatrix),
      dataLoadDenseMatrix abi stream dst ctx
        = match stream.read (abi.objectBytes abi.sizeofUInt 0) abi.sizeofUInt with
          | .raised err (stream, _) => .raised err (stream, dst)
          | .returned (stream, nr) =>
            match stream.read (abi.objectBytes abi.sizeofUInt 0) abi.sizeofUInt with
            | .raised err (stream, _) => .raised err (stream, dst)
            | .returned (stream, nc) =>
              visitM (fun p st => dataLoadDenseMatrixEntry abi p.1 p.2 st)
                (rowMajorOrder (abi.objectValue nr) (abi.objectValue nc))
                (stream, dst.resize abi (abi.objectValue nr) (abi.objectValue nc))) := by
  refine ⟨?_, ?_, ?_⟩
  · have h1 : ∀ x, (abi.objectBytes abi.sizeofUInt x).take abi.sizeofUInt
        = abi.objectBytes abi.sizeofUInt x := fun x =>
      List.take_of_length_le (le_of_eq (objectBytes_length abi _ _))
    simp only [dataStoreDenseMatrix, OStream.write, h1, written_dataStoreReal]
    rw [nested_forEach (fun i j stream => dataStoreReal abi stream (M.get i j) ctx)]
    have h2 := visit_write (fun p : Nat × Nat => (M.get p.1 p.2).bytes) abi.sizeofReal
      (rowMajorOrder M.m M.n)
      ⟨out.bytes ++ abi.objectBytes abi.sizeofUInt M.m ++ abi.objectBytes abi.sizeofUInt M.n⟩
    simp only [List.append_assoc] at h2 ⊢
    exact h2
  · intro i j st
    simp only [dataLoadDenseMatrixEntry, dataLoadReal]
    cases st.1.read (Real.zero abi).bytes abi.sizeofReal with
    | returned p => rfl
    | raised err p => rfl
  · intro stream dst
    simp only [dataLoadDenseMatrix]
    cases stream.read (abi.objectBytes abi.sizeofUInt 0) abi.sizeofUInt with
    | raised err p => rfl
    | returned p =>
      obtain ⟨s1, nr⟩ := p
      simp only
      cases s1.read (abi.objectBytes abi.sizeofUInt 0) abi.sizeofUInt with
      | raised err q => rfl
      | returned q =>
        obtain ⟨s2, nc⟩ := q
        simp only
        exact nested_forEachM (fun i j st => dataLoadDenseMatrixEntry abi i j st) _ _ _

/-- C17. Column-major matrix: for every `m` x `n` `ColumnMajorMatrix` `V`,
`dataStore` writes no dimension prefix and exactly the concatenation, for
`i = 0 .. m - 1` and inside `j = 0 .. n - 1` (logical row, column order), of
the bytes `dataStore(Real)` writes for `V(i, j)`; `dataLoad` visits the
`m' * n'` index pairs of the existing shape `m'` x `n'` of its destination in
that order, reading one scalar per pair as `dataLoad(Real)` does, and never
changes the shape, whether it returns or fails; and when the destination has
the shape of a well-formed `V`, loading from a good channel that starts with
what was stored for `V` returns normally, with the cursor behind these bytes
and every destination entry `(i, j)` bit-for-bit equal to `V(i, j)`. -/
theorem column_major_matrix (abi : Abi) (V : ColumnMajorMatrix) (out : OStream)
    (ctx : Option MooseMesh) :
    dataStoreColumnMajorMatrix abi out V ctx
      = ⟨out.bytes ++ (rowMajorOrder V.m V.n).flatMap (fun p =>
          (⟨[]⟩ : OStream).written (dataStoreReal abi ⟨[]⟩ (V.get p.1 p.2) ctx))⟩ ∧
    (∀ (stream : IStream) (D : ColumnMajorMatrix),
      dataLoadColumnMajorMatrix abi stream D ctx
        = visitM (fun p st => dataLoadColumnMajorMatrixEntry abi p.1 p.2 st)
            (rowMajorOrder D.m D.n) (stream, D) ∧
      (rowMajorOrder D.m D.n).length = D.m * D.n ∧
      (dataLoadColumnMajorMatrix abi stream D ctx).state.2.m = D.m ∧
      (dataLoadColumnMajorMatrix abi stream D ctx).state.2.n = D.n) ∧
    (∀ (i j : Nat) (st : IStream × ColumnMajorMatrix),
      dataLoadColumnMajorMatrixEntry abi i j st
        = match dataLoadReal abi st.1 (Real.zero abi) ctx with
          | .returned (stream, r) => .returned (stream, st.2.set i j r)
          | .raised err (stream, _) => .raised err (stream, st.2)) ∧
    (∀ (stream : IStream) (D : ColumnMajorMatrix) (rest : List Byte),
      stream.good = true → V.WellFormed abi → D.m = V.m → D.n = V.n →
      D.values.length = D.m * D.n →
      stream.buf = out.written (dataStoreColumnMajorMatrix abi out V ctx) ++ rest →
      ∃ R : ColumnMajorMatrix,
        dataLoadColumnMajorMatrix abi stream D ctx
          = .returned ({ stream with buf := rest }, R) ∧
        R.m = V.m ∧ R.n = V.n ∧ ∀ i j, i < V.m → j < V.n → R.get i j = V.get i j) := by
  have hload : ∀ (stream : IStream) (D : ColumnMajorMatrix),
      dataLoadColumnMajorMatrix abi stream D ctx
        = visitM (fun p st => dataLoadColumnMajorMatrixEntry abi p.1 p.2 st)
            (rowMajorOrder D.m D.n) (stream, D) := by
    intro stream D
    simp only [dataLoadColumnMajorMatrix]
    exact nested_forEachM (fun i j st => dataLoadColumnMajorMatrixEntry abi i j st) _ _ _
  have hentry : ∀ (i j : Nat) (st : IStream × ColumnMajorMatrix),
      dataLoadColumnMajorMatrixEntry abi i j st
        = match dataLoadReal abi st.1 (Real.zero abi) ctx with
          | .returned (stream, r) => .returned (stream, st.2.set i j r)
          | .raised err (stream, _) => .raised err (stream, st.2) := by
    intro i j st
    simp only [dataLoadColumnMajorMatrixEntry, dataLoadReal]
    cases st.1.read (Real.zero abi).bytes abi.sizeofReal with
    | returned p => rfl
    | raised err p => rfl
  have hshape : ∀ (stream : IStream) (D : ColumnMajorMatrix),
      (dataLoadColumnMajorMatrix abi stream D ctx).state.2.n_rows = D.n_rows ∧
      (dataLoadColumnMajorMatrix abi stream D ctx).state.2.n_cols = D.n_cols := by
    intro stream D
    rw [hload]
    refine visitM_invariant
      (fun st : IStream × ColumnMajorMatrix =>
        st.2.n_rows = D.n_rows ∧ st.2.n_cols = D.n_cols) _ ?_ _ (stream, D) ⟨rfl, rfl⟩
    intro p st hst
    simp only [dataLoadColumnMajorMatrixEntry]
    cases st.1.read (Real.zero abi).bytes abi.sizeofReal with
    | returned q => exact hst
    | raised err q => exact hst
  refine ⟨?_, fun stream D => ⟨hload stream D, length_rowMajorOrder _ _, (hshape stream D).1,
    (hshape stream D).2⟩, hentry, ?_⟩
  · simp only [written_dataStoreReal]
    exact dataStoreColumnMajorMatrix_bytes abi out V ctx
  · intro stream D rest hgood hV hm hn hlen hbuf
    have hDm : D.n_rows = V.n_rows := hm
    have hDn : D.n_cols = V.n_cols := hn
    rw [dataStoreColumnMajorMatrix_bytes, written_append] at hbuf
    have hsize : ∀ p ∈ rowMajorOrder V.m V.n,
        (V.get p.1 p.2).bytes.length = abi.sizeofReal := by
      intro p hp
      have := (mem_rowMajorOrder _ _ p).mp hp
      exact cmm_get_size abi V hV p.1 p.2 this.1 this.2
    have hflat : (rowMajorOrder V.m V.n).flatMap
          (fun p => (V.get p.1 p.2).bytes.take abi.sizeofReal)
        = (rowMajorOrder V.m V.n).flatMap (fun p => (V.get p.1 p.2).bytes) := by
      apply List.flatMap_congr
      intro p hp
      exact List.take_of_length_le (le_of_eq (hsize p hp))
    rw [hflat] at hbuf
    obtain ⟨R, hR, hrows, hcols, _, hset, _⟩ :=
      cmm_visit_load abi (fun p => V.get p.1 p.2) (rowMajorOrder V.m V.n) stream D rest hgood
        hbuf hsize (nodup_rowMajorOrder _ _)
        (fun p hp => by
          have := (mem_rowMajorOrder _ _ p).mp hp
          exact ⟨by rw [hDm]; exact this.1, by rw [hDn]; exact this.2⟩)
        hlen
    refine ⟨R, ?_, hrows.trans hDm, hcols.trans hDn, ?_⟩
    · rw [hload, hm, hn]
      exact hR
    · intro i j hi hj
      exact hset (i, j) ((mem_rowMajorOrder _ _ (i, j)).mpr ⟨hi, hj⟩)

/-- The round trip of C17 for a 2 x 3 matrix loaded into a 2 x 3 matrix of
ones. -/
theorem column_major_matrix_witness :
    (IStream.reader ((⟨[]⟩ : OStream).written (dataStoreColumnMajorMatrix lp64 ⟨[]⟩ cmm23 none)
      ++ [9]) IoState.goodbit).good = true ∧
    cmm23.WellFormed lp64 ∧ cmmOnes.m = cmm23.m ∧ cmmOnes.n = cmm23.n ∧
    cmmOnes.values.length = cmmOnes.m * cmmOnes.n ∧
    ∃ R : ColumnMajorMatrix,
      dataLoadColumnMajorMatrix lp64
          (IStream.reader ((⟨[]⟩ : OStream).written
            (dataStoreColumnMajorMatrix lp64 ⟨[]⟩ cmm23 none) ++ [9]) IoState.goodbit)
          cmmOnes none
        = .returned ({ IStream.reader ((⟨[]⟩ : OStream).written
            (dataStoreColumnMajorMatrix lp64 ⟨[]⟩ cmm23 none) ++ [9]) IoState.goodbit
            with buf := [9] }, R) ∧
      R.m = cmm23.m ∧ R.n = cmm23.n ∧
      ∀ i j, i < cmm23.m → j < cmm23.n → R.get i j = cmm23.get i j :=
  ⟨by decide, ⟨by decide, by decide⟩, by decide, by decide, by decide,
    (column_major_matrix lp64 cmm23 ⟨[]⟩ none).2.2.2
      (IStream.reader ((⟨[]⟩ : OStream).written
        (dataStoreColumnMajorMatrix lp64 ⟨[]⟩ cmm23 none) ++ [9]) IoState.goodbit)
      cmmOnes [9] (by decide) ⟨by decide, by decide⟩ (by decide) (by decide) (by decide) rfl⟩

/-- C18. Over-long strings are truncated consistently: for every string `s`
whose length is not a value of `unsigned int`
(`2 ^ (8 * sizeof(unsigned int)) <= s.length`, which is `2 ^ 32` for a 32-bit
`unsigned int`), `dataStore` writes the prefix value `s.length mod 2 ^ 32`
followed by only that many of the first bytes of `s`; this output is the
encoding of that beginning of `s`; a load from these bytes followed by any
other bytes returns that beginning of `s` with the cursor right behind the
encoding; and what is returned differs from `s`. -/
theorem dataStoreString_truncates (abi : Abi) (s : CString) (out : OStream)
    (ctxStore : Option MooseMesh) (hlong : 2 ^ (8 * abi.sizeofUInt) ≤ s.length) :
    dataStoreString abi out s ctxStore
      = ⟨out.bytes ++ (abi.objectBytes abi.sizeofUInt (s.length % 2 ^ (8 * abi.sizeofUInt))
          ++ s.take (s.length % 2 ^ (8 * abi.sizeofUInt)))⟩ ∧
    dataStoreString abi out s ctxStore
      = dataStoreString abi out (s.take (s.length % 2 ^ (8 * abi.sizeofUInt))) ctxStore ∧
    (∀ (rest : List Byte) (mask : IoState) (dst : CString) (ctxLoad : Option MooseMesh),
      dataLoadString abi
          (IStream.reader (out.written (dataStoreString abi out s ctxStore) ++ rest) mask)
          dst ctxLoad
        = .returned (IStream.reader rest mask, s.take (s.length % 2 ^ (8 * abi.sizeofUInt)))) ∧
    s.take (s.length % 2 ^ (8 * abi.sizeofUInt)) ≠ s := by
  have hr : range abi.sizeofUInt = 2 ^ (8 * abi.sizeofUInt) := rfl
  have hpos := range_pos abi.sizeofUInt
  have hlt : s.length % range abi.sizeofUInt < range abi.sizeofUInt := Nat.mod_lt _ hpos
  have hk := take_mod_length abi s
  rw [← hr] at hlong ⊢
  refine ⟨dataStoreString_bytes_any abi out s ctxStore, ?_, ?_, ?_⟩
  · rw [dataStoreString_bytes_any abi out s ctxStore,
      dataStoreString_bytes abi out _ ctxStore (by rw [hk]; exact hlt), hk]
  · intro rest mask dst ctxLoad
    rw [dataStoreString_bytes_any abi out s ctxStore, written_append]
    have := dataLoadString_framed abi
      (IStream.reader ((abi.objectBytes abi.sizeofUInt (s.length % range abi.sizeofUInt)
        ++ s.take (s.length % range abi.sizeofUInt)) ++ rest) mask)
      (s.take (s.length % range abi.sizeofUInt)) dst rest ctxLoad (reader_good _ _)
      (by rw [hk]; rfl) (by rw [hk]; exact hlt)
    exact this
  · intro h
    have h2 := congrArg List.length h
    rw [hk] at h2
    omega

/-- The truncation of C18 on the 64-bit target for a string of `2 ^ 32 + 5`
chars: its first 5 chars are stored. -/
theorem dataStoreString_truncates_witness :
    2 ^ (8 * lp64.sizeofUInt) ≤ (List.replicate (2 ^ 32 + 5) (7 : Byte)).length ∧
    (List.replicate (2 ^ 32 + 5) (7 : Byte)).take
        ((List.replicate (2 ^ 32 + 5) (7 : Byte)).length % 2 ^ (8 * lp64.sizeofUInt))
      ≠ List.replicate (2 ^ 32 + 5) (7 : Byte) :=
  ⟨by rw [List.length_replicate]; decide,
    (dataStoreString_truncates lp64 (List.replicate (2 ^ 32 + 5) (7 : Byte)) ⟨[]⟩ none
      (by rw [List.length_replicate]; decide)).2.2.2⟩

/-- C19 (as stated) fails: a destination `std::stringstream` that holds `ab`
with its put position at the end and whose `eofbit` is set (it has been read
to its end) is not written to: after loading the stored buffer `log` it
still holds `ab`, not `ablog`. The load returns normally; with a library
whose sentry sets `failbit` the destination has `failbit` set afterwards,
with one whose sentry does not its state is as before. -/
theorem stringstream_load_refused :
    dataLoadStringstream lp64 (fun _ => 255) (fun _ => true)
        (IStream.reader ((lp64.objectBytes lp64.sizeofSizeT 3 ++ [108, 111, 103]) ++ [9])
          IoState.goodbit)
        ⟨[97, 98], 2, ⟨true, false, false⟩, IoState.goodbit⟩ none
      = .returned (IStream.reader [9] IoState.goodbit,
          ⟨[97, 98], 2, ⟨true, true, false⟩, IoState.goodbit⟩) ∧
    dataLoadStringstream lp64 (fun _ => 255) (fun _ => false)
        (IStream.reader ((lp64.objectBytes lp64.sizeofSizeT 3 ++ [108, 111, 103]) ++ [9])
          IoState.goodbit)
        ⟨[97, 98], 2, ⟨true, false, false⟩, IoState.goodbit⟩ none
      = .returned (IStream.reader [9] IoState.goodbit,
          ⟨[97, 98], 2, ⟨true, false, false⟩, IoState.goodbit⟩) := by
  decide

/-- C19 (amended). Text-buffer load does not reset its destination: for every
good channel that starts with the encoding of contents `b`, and every
destination `std::stringstream` in good state that holds contents `c` with
its put position at the end, `dataLoad` returns normally with the destination
holding `c` followed by `b` (which is `b` only when `c` is empty); a
destination that is not good is not written to: it keeps its contents and
put position, and either its state is unchanged and the load returns
normally, or (with a library whose sentry sets `failbit`) `failbit` is set on
it and the load is left by a stream failure exactly when the exception mask
of the destination selects a bit that is then set; whereas the string load
and the dense-matrix load from the encoding of a value return that value
whatever the destination held. -/
theorem stringstream_load_appends (abi : Abi) (uninit : Nat → Byte) (sentry : IoState → Bool)
    (stream : IStream) (c b rest : List Byte) (ctx : Option MooseMesh)
    (hgood : stream.good = true)
    (hbuf : stream.buf = (abi.objectBytes abi.sizeofSizeT b.length ++ b) ++ rest)
    (hb : b.length < 2 ^ (8 * abi.sizeofSizeT)) :
    (∀ exceptions : IoState,
      dataLoadStringstream abi uninit sentry stream
          ⟨c, c.length, IoState.goodbit, exceptions⟩ ctx
        = .returned ({ stream with buf := rest },
            ⟨c ++ b, c.length + b.length, IoState.goodbit, exceptions⟩)) ∧
    (c ++ b = b ↔ c = []) ∧
    (∀ d : stringstream, d.good = false →
      dataLoadStringstream abi uninit sentry stream d ctx
        = if sentry d.state then
            if (d.state.or ⟨false, true, false⟩).meets d.exceptions then
              .raised .iosFailure ({ stream with buf := rest },
                { d with state := d.state.or ⟨false, true, false⟩ })
            else
              .returned ({ stream with buf := rest },
                { d with state := d.state.or ⟨false, true, false⟩ })
          else .returned ({ stream with buf := rest }, d)) ∧
    (∀ d : stringstream, d.good = false →
      (dataLoadStringstream abi uninit sentry stream d ctx).state.2.str = d.str ∧
      (dataLoadStringstream abi uninit sentry stream d ctx).state.2.pptr = d.pptr) ∧
    (∀ (input : IStream) (v dst : CString) (tail : List Byte),
      input.good = true →
      input.buf = (abi.objectBytes abi.sizeofUInt v.length ++ v) ++ tail →
      v.length < range abi.sizeofUInt →
      dataLoadString abi input dst ctx = .returned ({ input with buf := tail }, v)) ∧
    (∀ (input : IStream) (v dst : DenseMatrix) (tail : List Byte),
      input.good = true →
      input.buf = (abi.objectBytes abi.sizeofUInt v.m ++
        (abi.objectBytes abi.sizeofUInt v.n ++ v.val.flatMap Real.bytes)) ++ tail →
      v.WellFormed abi →
      dataLoadDenseMatrix abi input dst ctx = .returned ({ input with buf := tail }, v)) := by
  have hnot : ∀ d : stringstream, d.good = false →
      dataLoadStringstream abi uninit sentry stream d ctx
        = if sentry d.state then
            if (d.state.or ⟨false, true, false⟩).meets d.exceptions then
              .raised .iosFailure ({ stream with buf := rest },
                { d with state := d.state.or ⟨false, true, false⟩ })
            else
              .returned ({ stream with buf := rest },
                { d with state := d.state.or ⟨false, true, false⟩ })
          else .returned ({ stream with buf := rest }, d) := by
    intro d hd
    rw [dataLoadStringstream_framed abi uninit sentry stream b rest d ctx hgood hbuf hb,
      write_not_good sentry d b b.length hd]
    by_cases hs : sentry d.state = true
    · by_cases hm : (d.state.or ⟨false, true, false⟩).meets d.exceptions = true
      · simp [hs, hm]
      · simp [hs, hm]
    · simp [hs]
  refine ⟨?_, ?_, hnot, ?_, ?_, ?_⟩
  · intro exceptions
    rw [dataLoadStringstream_framed abi uninit sentry stream b rest _ ctx hgood hbuf hb,
      write_at_end]
  · constructor
    · intro h
      have h2 := congrArg List.length h
      simp only [List.length_append] at h2
      exact List.length_eq_zero.mp (by omega)
    · intro h
      rw [h, List.nil_append]
  · intro d hd
    rw [hnot d hd]
    by_cases hs : sentry d.state = true
    · by_cases hm : (d.state.or ⟨false, true, false⟩).meets d.exceptions = true
      · simp [hs, hm, Outcome.state]
      · simp [hs, hm, Outcome.state]
    · simp [hs, Outcome.state]
  · intro input v dst tail hg hbf hl
    exact dataLoadString_framed abi input v dst tail ctx hg hbf hl
  · intro input v dst tail hg hbf hv
    exact dataLoadDenseMatrix_framed abi input v dst tail ctx hg hbf hv

/-- The amended C19: loading the buffer `log` into a good stream that holds
`ab` gives `ablog`. -/
theorem stringstream_load_appends_witness :
    (IStream.reader ((lp64.objectBytes lp64.sizeofSizeT ([108, 111, 103] : List Byte).length
      ++ [108, 111, 103]) ++ [9]) IoState.goodbit).good = true ∧
    ([108, 111, 103] : List Byte).length < 2 ^ (8 * lp64.sizeofSizeT) ∧
    dataLoadStringstream lp64 (fun _ => 255) (fun _ => true)
        (IStream.reader ((lp64.objectBytes lp64.sizeofSizeT ([108, 111, 103] : List Byte).length
          ++ [108, 111, 103]) ++ [9]) IoState.goodbit)
        ⟨[97, 98], ([97, 98] : List Byte).length, IoState.goodbit, IoState.goodbit⟩ none
      = .returned ({ IStream.reader ((lp64.objectBytes lp64.sizeofSizeT
            ([108, 111, 103] : List Byte).length ++ [108, 111, 103]) ++ [9]) IoState.goodbit
            with buf := [9] },
          ⟨[97, 98] ++ [108, 111, 103],
            ([97, 98] : List Byte).length + ([108, 111, 103] : List Byte).length,
            IoState.goodbit, IoState.goodbit⟩) :=
  ⟨by decide, by decide,
    (stringstream_load_appends lp64 (fun _ => 255) (fun _ => true)
      (IStream.reader ((lp64.objectBytes lp64.sizeofSizeT ([108, 111, 103] : List Byte).length
        ++ [108, 111, 103]) ++ [9]) IoState.goodbit)
      [97, 98] [108, 111, 103] [9] none (by decide) rfl (by decide)).1 IoState.goodbit⟩

/-- C20. Reference encodings carry no entity-kind tag: for every identifier
`k`, the four store routines leave the channel with the same bytes for a null
pointer, and with the same bytes for an entity with id `k` (element or node,
at any address); the const and non-const load variants are the same
function; and the bytes stored from an element pointer with a valid id `k`,
loaded as a node pointer with a mesh that has a node `k`, return normally
with the destination set to that node of the mesh. -/
theorem reference_encoding_untagged (abi : Abi) (out : OStream) (ctx : Option MooseMesh)
    (k a1 a2 a3 a4 : Nat) :
    ((dataStoreConstElem abi out none ctx).state = (dataStoreElem abi out none ctx).state ∧
      (dataStoreElem abi out none ctx).state = (dataStoreConstNode abi out none ctx).state ∧
      (dataStoreConstNode abi out none ctx).state = (dataStoreNode abi out none ctx).state) ∧
    ((dataStoreConstElem abi out (some ⟨a1, k⟩) ctx).state
        = (dataStoreElem abi out (some ⟨a2, k⟩) ctx).state ∧
      (dataStoreElem abi out (some ⟨a2, k⟩) ctx).state
        = (dataStoreConstNode abi out (some ⟨a3, k⟩) ctx).state ∧
      (dataStoreConstNode abi out (some ⟨a3, k⟩) ctx).state
        = (dataStoreNode abi out (some ⟨a4, k⟩) ctx).state) ∧
    (∀ (st : RefLoad Elem) (context : Option MooseMesh),
      dataLoadConstElem abi st context = dataLoadElem abi st context) ∧
    (∀ (st : RefLoad Node) (context : Option MooseMesh),
      dataLoadConstNode abi st context = dataLoadNode abi st context) ∧
    (∀ (mesh : MooseMesh) (G : Node) (mask : IoState) (dst : Option Node) (lookups : List Nat),
      k ≠ invalid_id abi → k < range abi.sizeofDofId → mesh.nodes k = some G →
      dataLoadNode abi
          ⟨IStream.reader (out.written (dataStoreElem abi out (some ⟨a1, k⟩) ctx).state) mask,
            dst, lookups⟩ (some mesh)
        = .returned ⟨IStream.reader [] mask, some G, lookups ++ [k]⟩ ∧
      mesh.nodePtr k = .ok G) := by
  refine ⟨⟨rfl, rfl, rfl⟩, ⟨?_, ?_, ?_⟩, fun _ _ => rfl, fun _ _ => rfl, ?_⟩
  · by_cases hk : k = invalid_id abi <;>
      simp [dataStoreConstElem, dataStoreElem, hk, Outcome.state]
  · by_cases hk : k = invalid_id abi <;>
      simp [dataStoreConstNode, dataStoreElem, hk, Outcome.state]
  · by_cases hk : k = invalid_id abi <;>
      simp [dataStoreConstNode, dataStoreNode, hk, Outcome.state]
  · intro mesh G mask dst lookups hk hrange hG
    have hread := loadHelper_framed abi
      (IStream.reader (abi.objectBytes abi.sizeofDofId k) mask) (invalid_id abi)
      k [] (some mesh) (reader_good _ _) (by simp [IStream.reader]) hrange
    simp only [IStream.reader] at hread
    constructor
    · simp [dataStoreElem, storeHelper_bytes, Outcome.state, written_append,
        dataLoadNode, hread, IStream.reader, hk, MooseMesh.nodePtr, hG]
    · simp [MooseMesh.nodePtr, hG]

/-- The cross load of C20: the bytes stored from the element 42 at address 1000,
loaded as a node pointer, give the node 42 of the mesh. -/
theorem reference_encoding_untagged_witness :
    (42 : Nat) ≠ invalid_id lp64 ∧ 42 < range lp64.sizeofDofId ∧
    mesh42.nodes 42 = some ⟨3000, 42⟩ ∧
    dataLoadNode lp64
        ⟨IStream.reader ((⟨[]⟩ : OStream).written
          (dataStoreElem lp64 ⟨[]⟩ (some ⟨1000, 42⟩) none).state) IoState.goodbit,
          none, []⟩ (some mesh42)
      = .returned ⟨IStream.reader [] IoState.goodbit, some ⟨3000, 42⟩, [] ++ [42]⟩ :=
  ⟨by decide, by decide, by decide,
    ((reference_encoding_untagged lp64 ⟨[]⟩ none 42 1000 1001 1002 1003).2.2.2.2 mesh42
      ⟨3000, 42⟩ IoState.goodbit none [] (by decide) (by decide) (by decide)).1⟩

end MooseRestart
